import Mathlib

/-!
# surveygo: question model, identifier index and answer validation

A shallow embedding of `part/question.go` and `survey.go`.

* Go functions that can return an error or panic produce an `Outcome`.
* Go slices of strings are modelled with their backing arrays in an explicit
  `Heap`, because `append` may write in place when the capacity allows it.
* The collaborators that are outside the two files (JSON path navigation, the
  checker registry, the payload validators) are fields of an environment
  record.
-/

namespace Surveygo

/-! ## Outcomes of fallible Go code -/

/-- Result of a Go call: a value, a returned `error` with its message, or a
run-time panic (nil dereference, failed type assertion). -/
inductive Outcome (α : Type) where
  | ok (a : α)
  | error (msg : String)
  | panicked
  deriving DecidableEq, Repr

/-! ## The identifier pattern (`regexp` fragment) -/

/-- Position of the matcher in the text: the rune offset and the runes that
are left. -/
structure Pos where
  idx : Nat
  rest : List Char
  deriving DecidableEq, Repr

/-- The fragment of the Go `regexp` syntax that `nameIdRegexp` is written in. -/
inductive Regexp where
  /-- `^` without the `m` flag: beginning of text. -/
  | beginText
  /-- `$` without the `m` flag: end of text. -/
  | endText
  /-- A bracket class, given as inclusive rune ranges. -/
  | cls (ranges : List (Char × Char))
  /-- Concatenation. -/
  | cat (a b : Regexp)
  /-- Bounded repetition `a{min,max}`. -/
  | rep (a : Regexp) (min max : Nat)

/-- Membership of a rune in a bracket class. -/
def inClass (ranges : List (Char × Char)) (c : Char) : Bool :=
  ranges.any (fun r => decide (r.1.toNat ≤ c.toNat) && decide (c.toNat ≤ r.2.toNat))

/-- All positions reachable by between `min` and `max` iterations of `f`. -/
def repeatStep (f : Pos → List Pos) : Nat → Nat → Pos → List Pos
  | min, 0, p => if min = 0 then [p] else []
  | min, max + 1, p =>
    (if min = 0 then [p] else []) ++ (f p).flatMap (repeatStep f (min - 1) max)

/-- All positions at which a match of the expression started at `p` can end. -/
def Regexp.step : Regexp → Pos → List Pos
  | .beginText, p => if p.idx = 0 then [p] else []
  | .endText, p => if p.rest.isEmpty then [p] else []
  | .cls rs, p =>
    match p.rest with
    | [] => []
    | c :: t => if inClass rs c then [⟨p.idx + 1, t⟩] else []
  | .cat a b, p => (a.step p).flatMap b.step
  | .rep a min max, p => repeatStep a.step min max p

/-- `(*Regexp).MatchString`: whether the text contains any match of the
expression (the search tries every start offset). -/
def Regexp.MatchString (re : Regexp) (s : String) : Bool :=
  (List.range (s.length + 1)).any
    (fun i => !(re.step ⟨i, s.data.drop i⟩).isEmpty)

/-- The class `[a-zA-Z]`. -/
def letterRanges : List (Char × Char) := [('a', 'z'), ('A', 'Z')]

/-- The class `[a-zA-Z\d_-]`; `\d` is `[0-9]` in Go. -/
def bodyRanges : List (Char × Char) :=
  [('a', 'z'), ('A', 'Z'), ('0', '9'), ('_', '_'), ('-', '-')]

/-- The class `[a-zA-Z\d]`. -/
def alnumRanges : List (Char × Char) := [('a', 'z'), ('A', 'Z'), ('0', '9')]

/-- `nameIdRegexp = regexp.MustCompile("^[a-zA-Z][a-zA-Z\d_-]{1,62}[a-zA-Z\d]$")`. -/
def nameIdRegexp : Regexp :=
  .cat .beginText
    (.cat (.cls letterRanges)
      (.cat (.rep (.cls bodyRanges) 1 62)
        (.cat (.cls alnumRanges) .endText)))

/-- `nameIdRegexp.String()`: the source text of the pattern. -/
def nameIdRegexpString : String :=
  "^[a-zA-Z][a-zA-Z\\d_-]\x7b1,62\x7d[a-zA-Z\\d]$"

/-! ## Go slices of strings and `append` -/

/-- A slice header: the backing array it points to, its length and its
capacity. Every slice of the program starts at offset 0 of its array. -/
structure Slice where
  ptr : Nat
  len : Nat
  cap : Nat
  deriving DecidableEq, Repr

/-- The backing arrays allocated so far; `Slice.ptr` indexes this list. -/
abbrev Heap := List (List String)

/-- The elements a slice currently shows. -/
def Heap.read (h : Heap) (s : Slice) : List String :=
  (h.getD s.ptr []).take s.len

/-- Store `xs` into an array from index `i` on. -/
def writeAt (a : List String) (i : Nat) (xs : List String) : List String :=
  a.take i ++ xs ++ a.drop (i + xs.length)

/-- The capacity `append` gives a freshly allocated array, as a function of
the needed length and the old capacity. The language leaves it to the
implementation. -/
abbrev GrowPolicy := Nat → Nat → Nat

/-- `append(s, xs...)`: when the capacity suffices the elements are written
into the existing backing array, which every other slice of that array sees;
otherwise a new array is allocated and the old elements are copied. -/
def goAppend (g : GrowPolicy) (h : Heap) (s : Slice) (xs : List String) : Slice × Heap :=
  let newLen := s.len + xs.length
  if newLen ≤ s.cap then
    (⟨s.ptr, newLen, s.cap⟩, h.set s.ptr (writeAt (h.getD s.ptr []) s.len xs))
  else
    let c := max (g newLen s.cap) newLen
    (⟨h.length, newLen, c⟩, h ++ [h.read s ++ xs ++ List.replicate (c - newLen) ""])

/-- Allocation size classes of the Go runtime, in bytes. -/
def sizeClasses : List Nat :=
  [8, 16, 24, 32, 48, 64, 80, 96, 112, 128, 144, 160, 176, 192, 208, 224, 240,
   256, 288, 320, 352, 384, 416, 448, 480, 512, 576, 640, 704, 768, 896, 1024,
   1152, 1280, 1408, 1536, 1792, 2048, 2304, 2688, 3072, 3200, 3456, 4096,
   4864, 5120, 5376, 6144, 6528, 6784, 6912, 8192, 9472, 9728, 10240, 10880,
   12288, 13568, 14336, 16384, 18432, 19072, 20480, 21760, 24576, 27264,
   28672, 32768]

/-- `runtime.roundupsize`: the size of the block the allocator hands out. -/
def roundupsize (size : Nat) : Nat :=
  match sizeClasses.find? (fun c => decide (size ≤ c)) with
  | some c => c
  | none => (size + 8191) / 8192 * 8192

/-- The 1.25x growth loop of `runtime.growslice` for large slices. -/
def growLoop (newLen : Nat) : Nat → Nat → Nat
  | 0, newcap => newcap
  | fuel + 1, newcap =>
    if newcap < newLen then growLoop newLen fuel (newcap + (newcap + 3 * 256) / 4)
    else newcap

/-- Capacity chosen by `runtime.growslice` of the gc toolchain for a slice of
strings (16 bytes per element). -/
def gcGrow : GrowPolicy := fun newLen oldCap =>
  let doublecap := oldCap + oldCap
  let newcap :=
    if newLen > doublecap then newLen
    else if oldCap < 256 then doublecap
    else growLoop newLen newLen oldCap
  roundupsize (newcap * 16) / 16

/-! ## The question model -/

/-- `QuestionType`, a string type. -/
abbrev QuestionType := String

/-- Modelled from the spec: the five type tags of the closed enumeration
(the constants are declared outside `question.go`). -/
def QTypeSingleSelect : QuestionType := "single_select"

/-- Modelled from the spec: the `multiple_select` tag. -/
def QTypeMultipleSelect : QuestionType := "multiple_select"

/-- Modelled from the spec: the `radio` tag. -/
def QTypeRadio : QuestionType := "radio"

/-- Modelled from the spec: the `checkbox` tag. -/
def QTypeCheckbox : QuestionType := "checkbox"

/-- Modelled from the spec: the `text_area` tag. -/
def QTypeTextArea : QuestionType := "text_area"

/-- The first case list of the type switches in `question.go`. -/
def isChoiceType (t : QuestionType) : Bool :=
  t == QTypeSingleSelect || t == QTypeMultipleSelect || t == QTypeRadio || t == QTypeCheckbox

/-- A JSON value. Number literals are the integer ones. -/
inductive Json where
  | null
  | bool (b : Bool)
  | num (n : Int)
  | str (s : String)
  | arr (items : List Json)
  | obj (members : List (String × Json))

/-- `baseQuestion`: a nil pointer is `none`. -/
structure baseQuestion where
  Order : Option Int
  NameId : Option String
  QTyp : Option QuestionType
  Label : Option String
  Placeholder : Option String
  deriving DecidableEq, Repr

/-- Modelled from the spec: the free-text payload, whose constraint fields are
declared outside `question.go`; it keeps the decoded `value` document. -/
structure TextArea where
  payload : Json

mutual
/-- `Question`: the embedded base fields and the payload. -/
inductive Question where
  | mk (base : baseQuestion) (Value : QValue)
/-- The dynamic content of `Value any`: nil, a `*Choice` or a `*TextArea`. -/
inductive QValue where
  | nil
  | choice (c : Choice)
  | textArea (t : TextArea)
/-- Modelled from the spec: `Choice`, an ordered list of options (declared
outside `question.go`). -/
inductive Choice where
  | mk (Options : List ChoiceOption)
/-- Modelled from the spec: an option of a choice, the Go type `Option`, with
id, label, order, the required flag and the nested sub-questions. -/
inductive ChoiceOption where
  | mk (Id Label : Option String) (Order : Option Int) (Required : Bool)
      (SubQuestions : List Question)
end

/-- The embedded `baseQuestion` of a question. -/
def Question.base : Question → baseQuestion
  | .mk b _ => b

/-- The `Value` field. -/
def Question.Value : Question → QValue
  | .mk _ v => v

/-- The `NameId` pointer. -/
def Question.NameId (q : Question) : Option String := q.base.NameId

/-- The `QTyp` pointer. -/
def Question.QTyp (q : Question) : Option QuestionType := q.base.QTyp

/-- The `Options` field. -/
def Choice.Options : Choice → List ChoiceOption
  | .mk os => os

/-- The `SubQuestions` field. -/
def ChoiceOption.SubQuestions : ChoiceOption → List Question
  | .mk _ _ _ _ subs => subs

/-- The `Required` field. -/
def ChoiceOption.Required : ChoiceOption → Bool
  | .mk _ _ _ r _ => r

/-- `NameIdPath`. The `Required` field is the one `survey.go` reads; the
declaration in `question.go` has `NameId` and `Path`. -/
structure NameIdPath where
  NameId : String
  Path : Slice
  Required : Bool
  deriving DecidableEq, Repr

mutual
/-- `(*Question).GetNameIdPaths(from)`; `none` is a panic. The composite
literal sets `NameId` and `Path`, so `Required` is the zero value. -/
def Question.GetNameIdPaths (g : GrowPolicy) :
    Question → Slice → Heap → Option (List NameIdPath × Heap)
  | .mk base value, frm, h =>
    match base.NameId with
    | none => none
    | some nameId =>
      match base.QTyp with
      | none => none
      | some t =>
        if isChoiceType t then
          match getChoiceNameIdPaths g value frm h with
          | none => none
          | some (ps, h1) => some (⟨nameId, frm, false⟩ :: ps, h1)
        else some ([⟨nameId, frm, false⟩], h)
/-- `(*Question).getChoiceNameIdPaths(from)`, on the question's `Value`. -/
def getChoiceNameIdPaths (g : GrowPolicy) :
    QValue → Slice → Heap → Option (List NameIdPath × Heap)
  | value, frm, h =>
    let r := goAppend g h frm ["value", "options"]
    match value with
    | .choice (.mk opts) => optionsLoop g opts 0 r.1 r.2
    | _ => none
/-- The loop `for oi, o := range ...Options`, from index `oi` on. The guard
`o.SubQuestions != nil && len(o.SubQuestions) > 0` skips a loop that would
not iterate. -/
def optionsLoop (g : GrowPolicy) :
    List ChoiceOption → Nat → Slice → Heap → Option (List NameIdPath × Heap)
  | [], _, _, h => some ([], h)
  | (.mk _ _ _ _ subs) :: rest, oi, currentPath, h =>
    match subQuestionsLoop g subs oi 0 currentPath h with
    | none => none
    | some (ps, h1) =>
      match optionsLoop g rest (oi + 1) currentPath h1 with
      | none => none
      | some (ps2, h2) => some (ps ++ ps2, h2)
/-- The loop `for si, nq := range o.SubQuestions`, from index `si` on. -/
def subQuestionsLoop (g : GrowPolicy) :
    List Question → Nat → Nat → Slice → Heap → Option (List NameIdPath × Heap)
  | [], _, _, _, h => some ([], h)
  | nq :: rest, oi, si, currentPath, h =>
    let r := goAppend g h currentPath [toString oi, "subQuestions", toString si]
    match Question.GetNameIdPaths g nq r.1 r.2 with
    | none => none
    | some (p, h1) =>
      match subQuestionsLoop g rest oi (si + 1) currentPath h1 with
      | none => none
      | some (ps, h2) => some (p ++ ps, h2)
end

/-! ## The identifier index (`survey.go`) -/

/-- A `map[string]string`, as the list of its entries. -/
abbrev GoMap := List (String × String)

/-- The lookup `m[k]` with its `ok` flag. -/
def GoMap.get (m : GoMap) (k : String) : Option String := List.lookup k m

/-- The assignment `m[k] = v`. -/
def GoMap.set (m : GoMap) (k v : String) : GoMap :=
  if (List.lookup k m).isSome then m.map (fun e => if e.1 = k then (k, v) else e)
  else m ++ [(k, v)]

/-- `jsonSurvey`. -/
structure jsonSurvey where
  Title : Option String
  Version : Option String
  Description : Option String
  Questions : List Question

/-- The three results of `getNameIdPaths`; a nil map, slice or error is
`none`. -/
structure IndexResult where
  paths : Option GoMap
  required : Option (List String)
  err : Option String
  deriving DecidableEq, Repr

/-- The inner loop `for _, ip := range pathsForQuestion`: either the error
message of the early return or the updated map and required list. -/
def indexLoop (h : Heap) : List NameIdPath → GoMap → List String → Except String (GoMap × List String)
  | [], paths, required => .ok (paths, required)
  | ip :: rest, paths, required =>
    if (paths.get ip.NameId).isSome then .error ("duplicate nameId: " ++ ip.NameId)
    else
      indexLoop h rest (paths.set ip.NameId (".".intercalate (h.read ip.Path)))
        (if ip.Required then required ++ [ip.NameId] else required)

/-- The outer loop `for i, question := range s.Questions`, from index `i` on;
`none` is a panic. -/
def questionsLoop (g : GrowPolicy) (startPath : Slice) :
    List Question → Nat → Heap → GoMap → List String → Option IndexResult
  | [], _, _, paths, required => some ⟨some paths, some required, none⟩
  | question :: rest, i, h, paths, required =>
    let r := goAppend g h startPath [toString i]
    match question.GetNameIdPaths g r.1 r.2 with
    | none => none
    | some (pathsForQuestion, h1) =>
      match indexLoop h1 pathsForQuestion paths required with
      | .error e => some ⟨none, none, some e⟩
      | .ok (paths1, required1) => questionsLoop g startPath rest (i + 1) h1 paths1 required1

/-- `(*jsonSurvey).getNameIdPaths`; `startPath` is `[]string{"questions"}`,
of length and capacity 1. -/
def jsonSurvey.getNameIdPaths (g : GrowPolicy) (s : jsonSurvey) : Option IndexResult :=
  questionsLoop g ⟨0, 1, 1⟩ s.Questions 0 [["questions"]] [] []

/-! ## Decoding a question (`encoding/json` and `UnmarshalJSON`) -/

/-- Case folding of `encoding/json` for object keys, on the runes that fold
to an ASCII letter. -/
def foldRune (c : Char) : Char :=
  if c = Char.ofNat 0x17F then 'S'
  else if c = Char.ofNat 0x212A then 'K'
  else c.toUpper

/-- Whether an object key selects the struct field with the given tag: an
exact match or a case-insensitive one. -/
def fieldMatches (key tag : String) : Bool :=
  key == tag || key.data.map foldRune == tag.data.map foldRune

/-- Decoding into a `*string` field: `null` gives nil, a string is stored,
anything else is a type mismatch (`none`). -/
def storeStringPtr : Json → Option (Option String)
  | .null => some none
  | .str s => some (some s)
  | _ => none

/-- Decoding into a `*int` field. -/
def storeIntPtr : Json → Option (Option Int)
  | .null => some none
  | .num n => if -(2 ^ 63 : Int) ≤ n ∧ n < 2 ^ 63 then some (some n) else none
  | _ => none

/-- Decoding into a `bool` field; `null` leaves the field as it is. -/
def storeBool (old : Bool) : Json → Option Bool
  | .null => some old
  | .bool b => some b
  | _ => none

/-- Message of the `UnmarshalTypeError` that `json.Unmarshal` reports. -/
def jsonTypeError : String := "json: cannot unmarshal value into Go struct field"

/-- One object member stored into a `baseQuestion`, with the flag of a type
mismatch (the decoder records it and goes on). -/
def baseQuestion.storeMember (bq : baseQuestion) (key : String) (v : Json) : baseQuestion × Bool :=
  if fieldMatches key "order" then
    match storeIntPtr v with
    | some x => ({ bq with Order := x }, false)
    | none => (bq, true)
  else if fieldMatches key "nameId" then
    match storeStringPtr v with
    | some x => ({ bq with NameId := x }, false)
    | none => (bq, true)
  else if fieldMatches key "type" then
    match storeStringPtr v with
    | some x => ({ bq with QTyp := x }, false)
    | none => (bq, true)
  else if fieldMatches key "label" then
    match storeStringPtr v with
    | some x => ({ bq with Label := x }, false)
    | none => (bq, true)
  else if fieldMatches key "placeholder" then
    match storeStringPtr v with
    | some x => ({ bq with Placeholder := x }, false)
    | none => (bq, true)
  else (bq, false)

/-- The members of an object stored one after the other. -/
def baseQuestion.storeMembers (ms : List (String × Json)) : baseQuestion × Bool :=
  ms.foldl
    (fun acc kv => ((acc.1.storeMember kv.1 kv.2).1, acc.2 || (acc.1.storeMember kv.1 kv.2).2))
    (⟨none, none, none, none, none⟩, false)

/-- `json.Unmarshal(b, &bq)` for a `baseQuestion`. -/
def decodeBase : Json → Except String baseQuestion
  | .obj ms =>
    if (baseQuestion.storeMembers ms).2 then .error jsonTypeError
    else .ok (baseQuestion.storeMembers ms).1
  | .null => .ok ⟨none, none, none, none, none⟩
  | _ => .error jsonTypeError

/-- The collaborators of `Question.UnmarshalJSON` that are declared outside
`question.go`: the two validators (`none` is a nil error) and the decoding of
the free-text payload. -/
structure PartEnv where
  ChoiceUnmarshallValidator : Choice → Option String
  TextAreaUnmarshallValidator : TextArea → Option String
  decodeTextArea : Json → Except String TextArea

/-- `json.Unmarshal(b, &tq)` for `struct { baseQuestion; Value *T }`, given
what decoding the `value` members produced: the pointer and the flag of a
recorded type mismatch. An error returned by a nested `UnmarshalJSON` and a
panic end the decoding at once. -/
def unmarshalTyped {T : Type} (b : Json) (value : Outcome (Option T × Bool)) :
    Outcome (baseQuestion × Option T) :=
  match value with
  | .panicked => .panicked
  | .error e => .error e
  | .ok (v, bad) =>
    match decodeBase b with
    | .error e => .error e
    | .ok bq => if bad then .error jsonTypeError else .ok (bq, v)

/-- `getQuestionByValueTyp[T]`, applied to the result of its
`json.Unmarshal(b, &tq)`; `inj` stores the `*T` in the `Value any` field. -/
def getQuestionByValueTyp {T : Type} (inj : T → QValue)
    (unmarshalled : Outcome (baseQuestion × Option T))
    (unmarshallValidator : T → Option String) : Outcome Question :=
  match unmarshalled with
  | .panicked => .panicked
  | .error e => .error e
  | .ok (bq, value) =>
    match value with
    | none => .error "value is not defined"
    | some v =>
      match unmarshallValidator v with
      | some e => .error e
      | none => .ok (.mk bq (inj v))

/-- The `err != nil` branch that ends `UnmarshalJSON`. -/
def wrapQuestionError (nameId : String) : Outcome Question → Outcome Question
  | .error e => .error ("\n - error unmarshalling question '" ++ nameId ++ "'. " ++ e)
  | r => r

/-- The members of a question object decoded into `Value *TextArea`. -/
def valueTextAreaMembers (env : PartEnv) :
    List (String × Json) → Option TextArea → Bool → Option TextArea × Bool
  | [], cur, bad => (cur, bad)
  | (k, v) :: rest, cur, bad =>
    if fieldMatches k "value" then
      match v with
      | .null => valueTextAreaMembers env rest none bad
      | _ =>
        match env.decodeTextArea v with
        | .ok t => valueTextAreaMembers env rest (some t) bad
        | .error _ => valueTextAreaMembers env rest cur true
    else valueTextAreaMembers env rest cur bad

/-- The body of `(*Question).UnmarshalJSON(b)`, given what decoding the
`value` members of `b` into a `*Choice` produces (used in the choice branch
of the switch only). -/
def unmarshalQuestion (env : PartEnv) (b : Json)
    (choiceValue : Outcome (Option Choice × Bool)) : Outcome Question :=
  match decodeBase b with
  | .error e => .error e
  | .ok bq =>
    match bq.NameId with
    | none => .panicked
    | some nameId =>
      if !nameIdRegexp.MatchString nameId then
        .error ("invalid nameId '" ++ nameId ++ "', must match " ++ nameIdRegexpString)
      else
        match bq.QTyp with
        | none => .panicked
        | some t =>
          if isChoiceType t then
            wrapQuestionError nameId
              (getQuestionByValueTyp QValue.choice (unmarshalTyped b choiceValue)
                env.ChoiceUnmarshallValidator)
          else if t == QTypeTextArea then
            wrapQuestionError nameId
              (getQuestionByValueTyp QValue.textArea
                (unmarshalTyped b
                  (match b with
                   | .obj ms => .ok (valueTextAreaMembers env ms none false)
                   | _ => .ok (none, false)))
                env.TextAreaUnmarshallValidator)
          else .error ("invalid question type: " ++ t)

/-- Modelled from the spec: the zero value of the Go type `Option`. -/
def ChoiceOption.zero : ChoiceOption := .mk none none none false []

/-- Modelled from the spec: one member of a question object stored into
`Value *Choice` (the `Choice` declaration is outside `question.go`). `nested`
is what decoding the member's value into the pointed `Choice` produces; it is
used for a `value` member holding an object. -/
def storeValueChoice (k : String) (v : Json) (cur : Option Choice)
    (nested : Outcome (Choice × Bool)) : Outcome (Option Choice × Bool) :=
  if fieldMatches k "value" then
    match v with
    | .null => .ok (none, false)
    | .obj _ =>
      match nested with
      | .panicked => .panicked
      | .error e => .error e
      | .ok (c, bad) => .ok (some c, bad)
    | _ => .ok (some (cur.getD (.mk [])), true)
  else .ok (cur, false)

/-- Modelled from the spec: one member of a `value` object stored into a
`Choice`, whose one field is `options`. `nested` is what decoding the
member's value as an array of options produces. -/
def storeChoiceMember (k : String) (v : Json) (c : Choice)
    (nested : Outcome (List ChoiceOption × Bool)) : Outcome (Choice × Bool) :=
  if fieldMatches k "options" then
    match v with
    | .null => .ok (.mk [], false)
    | .arr _ =>
      match nested with
      | .panicked => .panicked
      | .error e => .error e
      | .ok (opts, bad) => .ok (.mk opts, bad)
    | _ => .ok (c, true)
  else .ok (c, false)

/-- Modelled from the spec: one member of an option object stored into the
option: `id`, `label`, `order`, `required` or `subQuestions`. `nested` is what
decoding the member's value as an array of questions produces. -/
def storeOptionMember (k : String) (v : Json) (o : ChoiceOption)
    (nested : Outcome (List Question)) : Outcome (ChoiceOption × Bool) :=
  match o with
  | .mk id label order required subs =>
    if fieldMatches k "id" then
      match storeStringPtr v with
      | some x => .ok (.mk x label order required subs, false)
      | none => .ok (o, true)
    else if fieldMatches k "label" then
      match storeStringPtr v with
      | some x => .ok (.mk id x order required subs, false)
      | none => .ok (o, true)
    else if fieldMatches k "order" then
      match storeIntPtr v with
      | some x => .ok (.mk id label x required subs, false)
      | none => .ok (o, true)
    else if fieldMatches k "required" then
      match storeBool required v with
      | some x => .ok (.mk id label order x subs, false)
      | none => .ok (o, true)
    else if fieldMatches k "subQuestions" then
      match v with
      | .null => .ok (.mk id label order required [], false)
      | .arr _ =>
        match nested with
        | .panicked => .panicked
        | .error e => .error e
        | .ok qs => .ok (.mk id label order required qs, false)
      | _ => .ok (o, true)
    else .ok (o, false)

mutual
/-- `(*Question).UnmarshalJSON(b)`: the result is the question assigned to
the receiver, a returned error, or a panic. -/
def Question.UnmarshalJSON (env : PartEnv) : Json → Outcome Question
  | .obj ms => unmarshalQuestion env (.obj ms) (valueChoiceMembers env ms none false)
  | b => unmarshalQuestion env b (.ok (none, false))
/-- Modelled from the spec: the members of a question object decoded into
`Value *Choice`, one after the other; an error of a nested `UnmarshalJSON`
and a panic end the decoding. -/
def valueChoiceMembers (env : PartEnv) :
    List (String × Json) → Option Choice → Bool → Outcome (Option Choice × Bool)
  | [], cur, bad => .ok (cur, bad)
  | (k, v) :: rest, cur, bad =>
    match storeValueChoice k v cur (choiceOfValue env v (cur.getD (.mk []))) with
    | .panicked => .panicked
    | .error e => .error e
    | .ok (cur1, bad1) => valueChoiceMembers env rest cur1 (bad || bad1)
/-- Modelled from the spec: a JSON object decoded into a `Choice`. -/
def choiceOfValue (env : PartEnv) : Json → Choice → Outcome (Choice × Bool)
  | .obj ms, c => choiceMembers env ms c false
  | _, c => .ok (c, false)
/-- Modelled from the spec: the members of a `value` object decoded into a
`Choice`. -/
def choiceMembers (env : PartEnv) :
    List (String × Json) → Choice → Bool → Outcome (Choice × Bool)
  | [], c, bad => .ok (c, bad)
  | (k, v) :: rest, c, bad =>
    match storeChoiceMember k v c (optionsOfValue env v) with
    | .panicked => .panicked
    | .error e => .error e
    | .ok (c1, bad1) => choiceMembers env rest c1 (bad || bad1)
/-- Modelled from the spec: a JSON array decoded into the options. -/
def optionsOfValue (env : PartEnv) : Json → Outcome (List ChoiceOption × Bool)
  | .arr items => optionItems env items
  | _ => .ok ([], false)
/-- Modelled from the spec: the elements of an `options` array. -/
def optionItems (env : PartEnv) : List Json → Outcome (List ChoiceOption × Bool)
  | [] => .ok ([], false)
  | item :: rest =>
    match optionOfItem env item with
    | .panicked => .panicked
    | .error e => .error e
    | .ok (o, bad) =>
      match optionItems env rest with
      | .panicked => .panicked
      | .error e => .error e
      | .ok (os, bad1) => .ok (o :: os, bad || bad1)
/-- Modelled from the spec: one element of an `options` array decoded into
an option. -/
def optionOfItem (env : PartEnv) : Json → Outcome (ChoiceOption × Bool)
  | .obj ms => optionMembers env ms ChoiceOption.zero false
  | .null => .ok (ChoiceOption.zero, false)
  | _ => .ok (ChoiceOption.zero, true)
/-- Modelled from the spec: the members of an option object. -/
def optionMembers (env : PartEnv) :
    List (String × Json) → ChoiceOption → Bool → Outcome (ChoiceOption × Bool)
  | [], o, bad => .ok (o, bad)
  | (k, v) :: rest, o, bad =>
    match storeOptionMember k v o (subQuestionsOfValue env v) with
    | .panicked => .panicked
    | .error e => .error e
    | .ok (o1, bad1) => optionMembers env rest o1 (bad || bad1)
/-- A JSON array decoded into sub-questions. -/
def subQuestionsOfValue (env : PartEnv) : Json → Outcome (List Question)
  | .arr items => subQuestionItems env items
  | _ => .ok []
/-- The elements of a `subQuestions` array: each one is decoded by
`Question.UnmarshalJSON`, and its error or panic ends the decoding. -/
def subQuestionItems (env : PartEnv) : List Json → Outcome (List Question)
  | [] => .ok []
  | item :: rest =>
    match Question.UnmarshalJSON env item with
    | .panicked => .panicked
    | .error e => .error e
    | .ok q =>
      match subQuestionItems env rest with
      | .panicked => .panicked
      | .error e => .error e
      | .ok qs => .ok (q :: qs)
end

/-! ## Answer validation (`Survey.Check`) -/

/-- Modelled from the spec: `part.ParseToQuestionType` (declared outside
`question.go`), which fails if the string is not one of the five tags. -/
def ParseToQuestionType (v : String) : Except String QuestionType :=
  if isChoiceType v || v == QTypeTextArea then .ok v
  else .error ("invalid question type: " ++ v)

/-- A question checker of package `check`: the located sub-document, the
submitted values and the type; `none` is a nil error. -/
abbrev Checker (R V : Type) := R → List V → QuestionType → Option String

/-- The collaborators of `Survey.Check`: `gjson.Parse`, `Result.Get`,
`Result.String` and `check.GetQuestionChecker`. -/
structure CheckEnv (R V : Type) where
  Parse : String → R
  Get : R → String → R
  Str : R → String
  GetQuestionChecker : QuestionType → Except String (Checker R V)

/-- `Survey`, with the fields `Check` reads. -/
structure Survey where
  NameIdPaths : GoMap
  RequiredNameIds : List String
  FullJsonSurvey : Option String

/-- `Answers`, a `map[string][]any`, as the list of its entries in the order
in which `range` visits them. -/
abbrev Answers (V : Type) := List (String × List V)

/-- Whether `aws[nameId]` reports `ok`. -/
def Answers.has {V : Type} (aws : Answers V) (nameId : String) : Bool :=
  aws.any (fun e => e.1 == nameId)

/-- The loop over `s.RequiredNameIds` that collects `missing`. -/
def missingRequired {V : Type} (aws : Answers V) : List String → List String → List String
  | [], missing => missing
  | nameId :: rest, missing =>
    if !aws.has nameId then missingRequired aws rest (missing ++ [nameId])
    else missingRequired aws rest missing

/-- What one run of `Check` did: its result and the checker invocations it
made, in order. -/
structure CheckRun (R V : Type) where
  result : Outcome Unit
  calls : List (R × List V × QuestionType)

/-- The loop `for nameId, values := range aws`. -/
def answersLoop {R V : Type} (env : CheckEnv R V) (s : Survey) (gres : R) :
    List (String × List V) → List (R × List V × QuestionType) → CheckRun R V
  | [], calls => ⟨.ok (), calls⟩
  | (nameId, values) :: rest, calls =>
    match s.NameIdPaths.get nameId with
    | none => ⟨.error ("nameId not found: " ++ nameId), calls⟩
    | some path =>
      match ParseToQuestionType (env.Str (env.Get (env.Get gres path) "type")) with
      | .error e => ⟨.error e, calls⟩
      | .ok qt =>
        match env.GetQuestionChecker qt with
        | .error e => ⟨.error e, calls⟩
        | .ok checker =>
          match checker (env.Get gres path) values qt with
          | some err =>
            ⟨.error ("invalid answer for nameId '" ++ nameId ++ "', path '" ++ path
              ++ "', error: " ++ err), calls ++ [(env.Get gres path, values, qt)]⟩
          | none => answersLoop env s gres rest (calls ++ [(env.Get gres path, values, qt)])

/-- `(*Survey).Check(aws)`; dereferencing a nil `FullJsonSurvey` panics. -/
def Survey.Check {R V : Type} (env : CheckEnv R V) (s : Survey) (aws : Answers V) : CheckRun R V :=
  match s.FullJsonSurvey with
  | none => ⟨.panicked, []⟩
  | some text =>
    if (missingRequired aws s.RequiredNameIds []).length > 0 then
      ⟨.error ("missing required answers: "
        ++ ", ".intercalate (missingRequired aws s.RequiredNameIds [])), []⟩
    else answersLoop env s (env.Parse text) aws []

/-- `(*jsonSurvey).validate`; `none` is a nil error. -/
def jsonSurvey.validate (s : jsonSurvey) : Option String :=
  if s.Title = none ∨ s.Title = some "" then some "survey title is required"
  else if s.Version = none ∨ s.Version = some "" then some "survey version is required"
  else none

/-! ## The question tree, as the claims describe it -/

mutual
/-- The nodes of a question's tree in pre-order, each with the path of
segments through which it is reached from `path`: the spec's
`value.options.<oi>.subQuestions.<si>` for each nesting level. -/
def Question.nodesAt : Question → List String → List (Question × List String)
  | .mk base value, path => (.mk base value, path) :: QValue.nodesAt value path
/-- The nodes below a payload. -/
def QValue.nodesAt : QValue → List String → List (Question × List String)
  | .choice (.mk opts), path => optionsNodesAt opts 0 path
  | _, _ => []
/-- The nodes below the options from position `oi` on. -/
def optionsNodesAt : List ChoiceOption → Nat → List String → List (Question × List String)
  | [], _, _ => []
  | (.mk _ _ _ _ subs) :: rest, oi, path =>
    subQuestionsNodesAt subs oi 0 path ++ optionsNodesAt rest (oi + 1) path
/-- The nodes of the sub-questions of option `oi` from position `si` on. -/
def subQuestionsNodesAt : List Question → Nat → Nat → List String → List (Question × List String)
  | [], _, _, _ => []
  | q :: rest, oi, si, path =>
    Question.nodesAt q (path ++ ["value", "options", toString oi, "subQuestions", toString si])
      ++ subQuestionsNodesAt rest oi (si + 1) path
end

/-- The nodes of the top-level questions from position `i` on, under
`questions.<i>`. -/
def questionsNodesAt : List Question → Nat → List (Question × List String)
  | [], _ => []
  | q :: rest, i => q.nodesAt ["questions", toString i] ++ questionsNodesAt rest (i + 1)

/-- All question nodes of a survey with their paths, in traversal order. -/
def jsonSurvey.nodes (s : jsonSurvey) : List (Question × List String) :=
  questionsNodesAt s.Questions 0

/-- The identifiers of all question nodes, in traversal order (a node without
identifier contributes none). -/
def jsonSurvey.nameIds (s : jsonSurvey) : List String :=
  s.nodes.filterMap (fun n => n.1.NameId)

mutual
/-- The invariant of a parsed question: identifier and type are set, the
payload is a `Choice` for the four choice types and a `TextArea` for
`text_area`, and the same holds for every nested sub-question. -/
def Question.WellFormed : Question → Bool
  | .mk base value =>
    base.NameId.isSome &&
    (match base.QTyp with
     | none => false
     | some t =>
       if isChoiceType t then QValue.choiceWellFormed value
       else t == QTypeTextArea && QValue.isTextArea value)
/-- The payload is a `Choice` whose sub-questions are well formed. -/
def QValue.choiceWellFormed : QValue → Bool
  | .choice (.mk opts) => optionsWellFormed opts
  | _ => false
/-- The payload is a `TextArea`. -/
def QValue.isTextArea : QValue → Bool
  | .textArea _ => true
  | _ => false
/-- Every sub-question of every option is well formed. -/
def optionsWellFormed : List ChoiceOption → Bool
  | [] => true
  | (.mk _ _ _ _ subs) :: rest => questionsWellFormed subs && optionsWellFormed rest
/-- Every question of the list is well formed. -/
def questionsWellFormed : List Question → Bool
  | [] => true
  | q :: rest => Question.WellFormed q && questionsWellFormed rest
end

mutual
/-- Whether some option in the tree of the question carries the required
flag. -/
def Question.anyRequiredOption : Question → Bool
  | .mk _ value => QValue.anyRequiredOption value
/-- Whether some option below the payload carries the required flag. -/
def QValue.anyRequiredOption : QValue → Bool
  | .choice (.mk opts) => optionsAnyRequired opts
  | _ => false
/-- Whether one of the options, or an option nested in their sub-questions,
carries the required flag. -/
def optionsAnyRequired : List ChoiceOption → Bool
  | [] => false
  | (.mk _ _ _ required subs) :: rest =>
    required || questionsAnyRequired subs || optionsAnyRequired rest
/-- Whether some option in the trees of the questions carries the required
flag. -/
def questionsAnyRequired : List Question → Bool
  | [] => false
  | q :: rest => Question.anyRequiredOption q || questionsAnyRequired rest
end

/-! ## Definitions used by the proofs -/

/-- The condition under which the loop of `Check` passes one answer. -/
def answerPasses {R V : Type} (env : CheckEnv R V) (s : Survey) (gres : R) (e : String × List V) : Prop :=
  ∃ path qt checker, s.NameIdPaths.get e.1 = some path ∧
    ParseToQuestionType (env.Str (env.Get (env.Get gres path) "type")) = .ok qt ∧
    env.GetQuestionChecker qt = .ok checker ∧
    checker (env.Get gres path) e.2 qt = none

/-- The identifiers carried by a list of nodes. -/
def nodeIds (l : List (Question × List String)) : List String :=
  l.filterMap (fun n => n.1.NameId)

/-- What a traversal returns on a well-formed tree: it does not panic, the
identifiers are those of the nodes in pre-order, no entry is required. -/
def TraversalOk (r : Option (List NameIdPath × Heap)) (nodes : List (Question × List String)) : Prop :=
  ∃ ps h1, r = some (ps, h1) ∧ ps.map NameIdPath.NameId = nodeIds nodes ∧
    ∀ ip ∈ ps, ip.Required = false

/-- The keys of a map. -/
def mapKeys (m : GoMap) : List String := m.map Prod.fst

/-- What decoding the `value` members of `b` into a `*Choice` produces. -/
def choiceValueOf (env : PartEnv) : Json → Outcome (Option Choice × Bool)
  | .obj ms => valueChoiceMembers env ms none false
  | _ => .ok (none, false)

/-- The options of a choice are well formed. -/
def Choice.wf : Choice → Bool
  | .mk opts => optionsWellFormed opts

/-- The sub-questions of an option are well formed. -/
def ChoiceOption.wf : ChoiceOption → Bool
  | .mk _ _ _ _ subs => questionsWellFormed subs

/-- Every question parsed from `b` is well formed. -/
def ParsedWf (env : PartEnv) (b : Json) : Prop :=
  ∀ q, Question.UnmarshalJSON env b = .ok q → q.WellFormed = true

/-- Decoding the `value` members keeps the choice well formed. -/
def ValueMembersWf (env : PartEnv) (ms : List (String × Json)) : Prop :=
  ∀ (cur : Option Choice) (bad : Bool) (r : Option Choice) (bad1 : Bool),
    (∀ c, cur = some c → c.wf = true) →
    valueChoiceMembers env ms cur bad = .ok (r, bad1) → ∀ c, r = some c → c.wf = true

/-- Decoding the members of a `value` object keeps the choice well formed. -/
def ChoiceMembersWf (env : PartEnv) (ms : List (String × Json)) : Prop :=
  ∀ (c0 : Choice) (bad : Bool) (c : Choice) (bad1 : Bool), c0.wf = true →
    choiceMembers env ms c0 bad = .ok (c, bad1) → c.wf = true

/-- Decoded options are well formed. -/
def OptionItemsWf (env : PartEnv) (items : List Json) : Prop :=
  ∀ (opts : List ChoiceOption) (bad : Bool),
    optionItems env items = .ok (opts, bad) → optionsWellFormed opts = true

/-- Decoding the members of an option keeps it well formed. -/
def OptionMembersWf (env : PartEnv) (ms : List (String × Json)) : Prop :=
  ∀ (o0 : ChoiceOption) (bad : Bool) (o : ChoiceOption) (bad1 : Bool), o0.wf = true →
    optionMembers env ms o0 bad = .ok (o, bad1) → o.wf = true

/-- Decoded sub-questions are well formed. -/
def SubQuestionItemsWf (env : PartEnv) (items : List Json) : Prop :=
  ∀ qs, subQuestionItems env items = .ok qs → questionsWellFormed qs = true

/-- What the induction over a JSON value carries: whatever is decoded from
the value is well formed. -/
def JsonWf (env : PartEnv) (b : Json) : Prop :=
  ParsedWf env b ∧
  (∀ c0 c bad, c0.wf = true → choiceOfValue env b c0 = .ok (c, bad) → c.wf = true) ∧
  (∀ opts bad, optionsOfValue env b = .ok (opts, bad) → optionsWellFormed opts = true) ∧
  (∀ o bad, optionOfItem env b = .ok (o, bad) → o.wf = true) ∧
  (∀ qs, subQuestionsOfValue env b = .ok qs → questionsWellFormed qs = true)

/-! ## Sample inputs -/

/-- An environment whose validators accept every payload. -/
def permissiveEnv : PartEnv where
  ChoiceUnmarshallValidator := fun _ => none
  TextAreaUnmarshallValidator := fun _ => none
  decodeTextArea := fun j => .ok ⟨j⟩

/-- A free-text question document. -/
def textQuestionJson (nameId : String) : Json :=
  .obj [("nameId", .str nameId), ("type", .str "text_area"), ("label", .str "text"),
    ("value", .obj [])]

/-- A radio question document with one option, which holds the given
sub-questions and the given required flag. -/
def radioQuestionJson (nameId : String) (required : Bool) (subs : List Json) : Json :=
  .obj [("nameId", .str nameId), ("type", .str "radio"), ("label", .str "pick"),
    ("value", .obj [("options", .arr [.obj [("id", .str "1"), ("label", .str "one"),
      ("order", .num 0), ("required", .bool required), ("subQuestions", .arr subs)]])])]

/-- A question whose nested sub-question `mid` has two sub-questions of its
own, in an option that carries the required flag. -/
def nestedJson : Json :=
  radioQuestionJson "top" false
    [radioQuestionJson "mid" true [textQuestionJson "first", textQuestionJson "second"]]

/-- The question that `nestedJson` parses to. -/
def nestedQuestion : Question :=
  .mk ⟨none, some "top", some "radio", some "pick", none⟩
    (.choice (.mk [.mk (some "1") (some "one") (some 0) false
      [.mk ⟨none, some "mid", some "radio", some "pick", none⟩
        (.choice (.mk [.mk (some "1") (some "one") (some 0) true
          [.mk ⟨none, some "first", some "text_area", some "text", none⟩
              (.textArea ⟨.obj []⟩),
           .mk ⟨none, some "second", some "text_area", some "text", none⟩
              (.textArea ⟨.obj []⟩)]]))]]))

/-- The survey with that one question. -/
def nestedSurvey : jsonSurvey := ⟨some "t", some "1", none, [nestedQuestion]⟩

/-- The stored survey built from what `getNameIdPaths` returns for
`nestedSurvey`: its index and its required list. -/
def nestedStored : Survey :=
  ⟨[("top", "questions.0"),
    ("mid", "questions.0.value.options.0.subQuestions.0"),
    ("first", "questions.0.value.options.0.subQuestions.0.value.options.0.subQuestions.1"),
    ("second", "questions.0.value.options.0.subQuestions.0.value.options.0.subQuestions.1")],
   [], some "doc"⟩

/-- A survey in which a nested question repeats the identifier of a
top-level one. -/
def duplicateSurvey : jsonSurvey :=
  ⟨some "t", some "1", none,
    [.mk ⟨none, some "abc", some "text_area", none, none⟩ (.textArea ⟨.obj []⟩),
     .mk ⟨none, some "top", some "radio", none, none⟩
       (.choice (.mk [.mk none none none false
         [.mk ⟨none, some "abc", some "text_area", none, none⟩ (.textArea ⟨.obj []⟩)]]))]⟩

/-- A question document with the identifier `x`, which the pattern rejects,
and a value whose sub-question has no identifier. -/
def badIdJson : Json :=
  .obj [("nameId", .str "x"), ("type", .str "radio"),
    ("value", .obj [("options", .arr [.obj [("subQuestions", .arr [.obj []])]])])]

/-- Collaborators of `Check` for the samples: every located type reads
`checkbox`, and the checker rejects the value `9`. -/
def sampleCheckEnv : CheckEnv String String where
  Parse := fun text => text
  Get := fun r path => r ++ "." ++ path
  Str := fun _ => "checkbox"
  GetQuestionChecker := fun _ =>
    .ok (fun _ values _ => if values = ["9"] then some "unknown option" else none)

/-- A stored survey with one required question. -/
def sampleSurvey : Survey := ⟨[("color", "questions.0")], ["color"], some "doc"⟩

/-- An answer set for `sampleSurvey`. -/
def sampleAnswers : Answers String := [("color", ["2"])]

/-! ## The receiver of `UnmarshalJSON`, slices in the heap, more samples -/

/-- The memory that the body of `UnmarshalJSON` reads and writes: the
question the receiver `q` points to, and the local variables. -/
structure UnmarshalFrame where
  /-- The question held by the receiver, `*q`. -/
  q : Question
  /-- The local `var bq baseQuestion`. -/
  bq : baseQuestion
  /-- The local `nameId`. -/
  nameId : String
  /-- The local `var nq *Question`; the nil pointer is `none`. -/
  nq : Option Question
  /-- The local `var err error`; the nil error is `none`. -/
  err : Option String

/-- How the execution of a statement ends: it falls through to the next
statement, it returns from the function with an error value, or it panics. -/
inductive Flow where
  | next
  | returned (err : Option String)
  | panicked

/-- The statements of the body of `UnmarshalJSON`, lines 50 to 78 of
`question.go`. -/
inductive UnmarshalStmt where
  /-- Line 51: `if err := json.Unmarshal(b, &bq); err != nil { return err }`. -/
  | unmarshalBase
  /-- Line 55: `nameId := *bq.NameId`. -/
  | loadNameId
  /-- Line 57: `if !nameIdRegexp.MatchString(nameId) { return fmt.Errorf(...) }`. -/
  | matchNameId
  /-- Line 65: the `switch *bq.QTyp`, which assigns `nq, err` or returns. -/
  | switchType
  /-- Line 74: `if err != nil { return fmt.Errorf(...) }`. -/
  | checkErr
  /-- Line 77: `*q = *nq`. -/
  | storeReceiver
  /-- Line 78: `return nil`. -/
  | returnNil
  deriving DecidableEq

/-- The assignment `nq, err = getQuestionByValueTyp(...)`: on an error the
call returns a nil pointer. -/
def UnmarshalFrame.assignCall (fr : UnmarshalFrame) : Outcome Question → UnmarshalFrame × Flow
  | .ok nq => ({ fr with nq := some nq, err := none }, .next)
  | .error e => ({ fr with nq := none, err := some e }, .next)
  | .panicked => (fr, .panicked)

/-- The effect of one statement of the body on the frame. Each statement
writes the variables on the left of its assignments and nothing else. -/
def UnmarshalStmt.exec (env : PartEnv) (b : Json) :
    UnmarshalStmt → UnmarshalFrame → UnmarshalFrame × Flow
  | .unmarshalBase, fr =>
    match decodeBase b with
    | .error e => (fr, .returned (some e))
    | .ok bq => ({ fr with bq := bq }, .next)
  | .loadNameId, fr =>
    match fr.bq.NameId with
    | none => (fr, .panicked)
    | some nameId => ({ fr with nameId := nameId }, .next)
  | .matchNameId, fr =>
    if !nameIdRegexp.MatchString fr.nameId then
      (fr, .returned (some ("invalid nameId '" ++ fr.nameId ++ "', must match "
        ++ nameIdRegexpString)))
    else (fr, .next)
  | .switchType, fr =>
    match fr.bq.QTyp with
    | none => (fr, .panicked)
    | some t =>
      if isChoiceType t then
        fr.assignCall
          (getQuestionByValueTyp QValue.choice (unmarshalTyped b (choiceValueOf env b))
            env.ChoiceUnmarshallValidator)
      else if t == QTypeTextArea then
        fr.assignCall
          (getQuestionByValueTyp QValue.textArea
            (unmarshalTyped b
              (match b with
               | .obj ms => .ok (valueTextAreaMembers env ms none false)
               | _ => .ok (none, false)))
            env.TextAreaUnmarshallValidator)
      else (fr, .returned (some ("invalid question type: " ++ t)))
  | .checkErr, fr =>
    match fr.err with
    | none => (fr, .next)
    | some e =>
      match fr.bq.NameId with
      | none => (fr, .panicked)
      | some nameId =>
        (fr, .returned (some ("\n - error unmarshalling question '" ++ nameId ++ "'. " ++ e)))
  | .storeReceiver, fr =>
    match fr.nq with
    | none => (fr, .panicked)
    | some nq => ({ fr with q := nq }, .next)
  | .returnNil, fr => (fr, .returned none)

/-- The statements executed in sequence, until one returns or panics. -/
def runStmts (env : PartEnv) (b : Json) :
    List UnmarshalStmt → UnmarshalFrame → UnmarshalFrame × Flow
  | [], fr => (fr, .next)
  | s :: rest, fr =>
    match s.exec env b fr with
    | (fr1, .next) => runStmts env b rest fr1
    | r => r

/-- The body of `UnmarshalJSON`, in source order. -/
def unmarshalBody : List UnmarshalStmt :=
  [.unmarshalBase, .loadNameId, .matchNameId, .switchType, .checkErr, .storeReceiver, .returnNil]

/-- The frame at the entry of `UnmarshalJSON`: the receiver holds `q`, the
locals hold their zero values. -/
def UnmarshalFrame.entry (q : Question) : UnmarshalFrame :=
  ⟨q, ⟨none, none, none, none, none⟩, "", none, none⟩

/-- A call that runs the statements `prog` on the receiver `q`: the question
the receiver holds after the call, and what the call returns. -/
def Question.runUnmarshal (env : PartEnv) (prog : List UnmarshalStmt) (q : Question)
    (b : Json) : Question × Outcome Unit :=
  match runStmts env b prog (UnmarshalFrame.entry q) with
  | (fr, .returned (some e)) => (fr.q, .error e)
  | (fr, .returned none) => (fr.q, .ok ())
  | (fr, .panicked) => (fr.q, .panicked)
  | (fr, .next) => (fr.q, .ok ())

/-- The call `q.UnmarshalJSON(b)`: the body run from the frame in which the
receiver holds `q`. The nested calls that decoding the `value` member makes
have receivers inside the freshly allocated `tq`, never `q`. -/
def Question.UnmarshalJSONOn (env : PartEnv) (q : Question) (b : Json) :
    Question × Outcome Unit :=
  Question.runUnmarshal env unmarshalBody q b

/-- The body with the store moved before the check of the identifier. -/
def storeFirstBody : List UnmarshalStmt :=
  [.unmarshalBase, .loadNameId, .switchType, .checkErr, .storeReceiver, .matchNameId, .returnNil]

/-- The loop of `Check` rejects the answer: its identifier is indexed at
`path`, the type parses, a checker is registered and returns `msg`. -/
def answerRejected {R V : Type} (env : CheckEnv R V) (s : Survey) (gres : R)
    (e : String × List V) (path msg : String) : Prop :=
  ∃ qt checker, s.NameIdPaths.get e.1 = some path ∧
    ParseToQuestionType (env.Str (env.Get (env.Get gres path) "type")) = .ok qt ∧
    env.GetQuestionChecker qt = .ok checker ∧
    checker (env.Get gres path) e.2 qt = some msg

/-- A stored survey without required questions. -/
def optionalSurvey : Survey := ⟨[("color", "questions.0")], [], some "doc"⟩

/-- The slice points to an allocated array that holds its elements. -/
def Slice.ValidIn (s : Slice) (h : Heap) : Prop :=
  s.ptr < h.length ∧ s.len ≤ (h.getD s.ptr []).length

/-- The heap `h1` shows the same elements through `s` as `h` did. -/
def HeapKeeps (s : Slice) (h h1 : Heap) : Prop :=
  h1.read s = h.read s ∧ s.ValidIn h1

/-- A traversal started on `t` leaves what the slice `s` shows untouched,
whenever `t` extends `s` or lives in another array. -/
def FrameOf (run : Slice → Heap → Option (List NameIdPath × Heap)) : Prop :=
  ∀ (t : Slice) (h : Heap) (s : Slice) (ps : List NameIdPath) (h1 : Heap),
    s.ValidIn h → (t.ptr = s.ptr → s.len ≤ t.len) → run t h = some (ps, h1) →
    HeapKeeps s h h1

/-- Every node of the list carries an identifier. -/
def AllNamed (l : List (Question × List String)) : Prop :=
  l.map (fun n => n.1.NameId) = (nodeIds l).map some

/-- An environment whose validators reject every payload. -/
def strictEnv : PartEnv where
  ChoiceUnmarshallValidator := fun _ => some "rejected"
  TextAreaUnmarshallValidator := fun _ => some "rejected"
  decodeTextArea := fun j => .ok ⟨j⟩

/-- The members of a radio question document whose `value` is `null`. -/
def nullValueMembers : List (String × Json) :=
  [("nameId", .str "abc"), ("type", .str "radio"), ("value", .null)]

/-- A question document with the type tag `slider`. -/
def sliderJson : Json :=
  .obj [("nameId", .str "abc"), ("type", .str "slider"), ("value", .obj [])]

/-- A stored survey with two indexed questions, one of them required. -/
def twoSurvey : Survey :=
  ⟨[("color", "questions.0"), ("size", "questions.1")], ["color"], some "doc"⟩

/-- The checker of `sampleCheckEnv`. -/
def sampleChecker : Checker String String :=
  fun _ values _ => if values = ["9"] then some "unknown option" else none

/-! ## The identifier pattern -/

theorem isLower_iff (c : Char) : c.isLower = true ↔ 97 ≤ c.toNat ∧ c.toNat ≤ 122 := by
  simp only [Char.isLower, ge_iff_le, Bool.and_eq_true, decide_eq_true_eq, UInt32.le_def, BitVec.le_def, Char.toNat, UInt32.toNat]
  rfl

theorem repeatStep_cls (rs : List (Char × Char)) (hi : Nat) : ∀ (lo i : Nat) (l : List Char) (q : Pos),
    q ∈ repeatStep (Regexp.cls rs).step lo hi ⟨i, l⟩ ↔
      ∃ k, lo ≤ k ∧ k ≤ hi ∧ k ≤ l.length ∧ (∀ c ∈ l.take k, inClass rs c = true) ∧
        q = ⟨i + k, l.drop k⟩ := by
  induction hi with
  | zero =>
    intro lo i l q
    simp only [repeatStep]
    constructor
    · intro h
      split at h
      · simp at h; exact ⟨0, by omega, by omega, by omega, by simp, by simpa using h⟩
      · simp at h
    · rintro ⟨k, h1, h2, h3, h4, h5⟩
      have : k = 0 := by omega
      subst this
      have : lo = 0 := by omega
      simp [this, h5]
  | succ n ih =>
    intro lo i l q
    simp only [repeatStep, List.mem_append, List.mem_flatMap]
    constructor
    · rintro (h | ⟨p, hp, hq⟩)
      · split at h
        · simp at h; exact ⟨0, by omega, by omega, by omega, by simp, by simpa using h⟩
        · simp at h
      · cases l with
        | nil => simp [Regexp.step] at hp
        | cons c t =>
          simp only [Regexp.step] at hp
          split at hp
          · rename_i hc
            simp at hp
            subst hp
            rw [ih] at hq
            obtain ⟨k, h1, h2, h3, h4, h5⟩ := hq
            refine ⟨k + 1, by omega, by omega, by simp; omega, ?_, ?_⟩
            · intro x hx
              simp at hx
              rcases hx with rfl | hx
              · exact hc
              · exact h4 x hx
            · rw [h5]; simp; omega
          · simp at hp
    · rintro ⟨k, h1, h2, h3, h4, h5⟩
      cases k with
      | zero =>
        left
        have : lo = 0 := by omega
        simp [this, h5]
      | succ k =>
        right
        cases l with
        | nil => simp at h3
        | cons c t =>
          refine ⟨⟨i + 1, t⟩, ?_, ?_⟩
          · have hc : inClass rs c = true := h4 c (by simp)
            simp [Regexp.step, hc]
          · rw [ih]
            refine ⟨k, by omega, by omega, by simp at h3; omega, ?_, ?_⟩
            · intro x hx
              exact h4 x (by simp [hx])
            · rw [h5]; simp; omega

theorem isUpper_iff (c : Char) : c.isUpper = true ↔ 65 ≤ c.toNat ∧ c.toNat ≤ 90 := by
  simp only [Char.isUpper, ge_iff_le, Bool.and_eq_true, decide_eq_true_eq, UInt32.le_def, BitVec.le_def, Char.toNat, UInt32.toNat]
  rfl
theorem isDigit_iff (c : Char) : c.isDigit = true ↔ 48 ≤ c.toNat ∧ c.toNat ≤ 57 := by
  simp only [Char.isDigit, ge_iff_le, Bool.and_eq_true, decide_eq_true_eq, UInt32.le_def, BitVec.le_def, Char.toNat, UInt32.toNat]
  rfl
theorem char_eq_iff_toNat (c d : Char) : c = d ↔ c.toNat = d.toNat := by
  constructor
  · intro h; rw [h]
  · intro h
    apply Char.ext
    apply UInt32.toNat.inj  h
theorem inClass_letter (c : Char) : inClass letterRanges c = true ↔ c.isAlpha = true := by
  simp [inClass, letterRanges, Char.isAlpha, isLower_iff, isUpper_iff]
  tauto
theorem inClass_body (c : Char) : inClass bodyRanges c = true ↔
    (c.isAlpha = true ∨ c.isDigit = true ∨ c = '_' ∨ c = '-') := by
  simp [inClass, bodyRanges, Char.isAlpha, isLower_iff, isUpper_iff, isDigit_iff, char_eq_iff_toNat]
  omega
theorem inClass_alnum (c : Char) : inClass alnumRanges c = true ↔
    (c.isAlpha = true ∨ c.isDigit = true) := by
  simp [inClass, alnumRanges, Char.isAlpha, isLower_iff, isUpper_iff, isDigit_iff]
  tauto
theorem alnum_iff_body (c : Char) : inClass alnumRanges c = true ↔
    (inClass bodyRanges c = true ∧ c ≠ '_' ∧ c ≠ '-') := by
  simp [inClass, bodyRanges, alnumRanges, char_eq_iff_toNat]
  omega

theorem step_cat (a b : Regexp) (p : Pos) :
    (Regexp.cat a b).step p = (a.step p).flatMap b.step := by
  simp [Regexp.step]
theorem step_rep (a : Regexp) (lo hi : Nat) (p : Pos) :
    (Regexp.rep a lo hi).step p = repeatStep a.step lo hi p := by
  simp [Regexp.step]
theorem step_beginText (i : Nat) (l : List Char) :
    Regexp.beginText.step ⟨i, l⟩ = if i = 0 then [⟨i, l⟩] else [] := by
  simp [Regexp.step]
theorem step_endText (i : Nat) (l : List Char) :
    Regexp.endText.step ⟨i, l⟩ = if l = [] then [⟨i, l⟩] else [] := by
  cases l <;> simp [Regexp.step]
theorem step_cls_nil (rs : List (Char × Char)) (i : Nat) :
    (Regexp.cls rs).step ⟨i, []⟩ = [] := by
  simp [Regexp.step]
theorem step_cls_cons (rs : List (Char × Char)) (i : Nat) (c : Char) (t : List Char) :
    (Regexp.cls rs).step ⟨i, c :: t⟩ = if inClass rs c = true then [⟨i + 1, t⟩] else [] := by
  simp [Regexp.step]

/-- The matches of the pattern started at offset `i`. -/
theorem nameIdRegexp_step_ne_nil (i : Nat) (l : List Char) :
    nameIdRegexp.step ⟨i, l⟩ ≠ [] ↔
      i = 0 ∧ ∃ c mid z, l = c :: (mid ++ [z]) ∧ 1 ≤ mid.length ∧ mid.length ≤ 62 ∧
        inClass letterRanges c = true ∧ (∀ x ∈ mid, inClass bodyRanges x = true) ∧
        inClass alnumRanges z = true := by
  rw [← List.length_pos, List.length_pos_iff_exists_mem]
  simp only [nameIdRegexp, step_cat, step_rep, step_beginText, List.mem_flatMap]
  constructor
  · rintro ⟨q, p1, hp1, p2, hp2, p3, hp3, p4, hp4, hq⟩
    split at hp1
    · rename_i hi
      simp at hp1; subst hp1
      refine ⟨hi, ?_⟩
      cases l with
      | nil => simp [step_cls_nil] at hp2
      | cons c t =>
        rw [step_cls_cons] at hp2
        split at hp2
        · rename_i hc
          simp at hp2; subst hp2
          have h3 := (repeatStep_cls bodyRanges 62 1 _ t p3).1 hp3
          obtain ⟨k, hk1, hk2, hk3, hk4, rfl⟩ := h3
          cases hzr : t.drop k with
          | nil => rw [hzr, step_cls_nil] at hp4; simp at hp4
          | cons z r =>
            rw [hzr, step_cls_cons] at hp4
            split at hp4
            · rename_i hz
              simp at hp4; subst hp4
              rw [step_endText] at hq
              split at hq
              · rename_i hr
                subst hr
                refine ⟨c, t.take k, z, ?_, ?_, ?_, hc, hk4, hz⟩
                · rw [← hzr, List.take_append_drop]
                · simp; omega
                · simp; omega
              · simp at hq
            · simp at hp4
        · simp at hp2
    · simp at hp1
  · rintro ⟨rfl, c, mid, z, rfl, h1, h2, hc, hmid, hz⟩
    refine ⟨⟨1 + mid.length + 1, []⟩, ⟨0, c :: (mid ++ [z])⟩, by simp, ⟨1, mid ++ [z]⟩,
      by simp [step_cls_cons, hc],
      ⟨1 + mid.length, [z]⟩, ?_, ⟨1 + mid.length + 1, []⟩, by simp [step_cls_cons, hz],
      by simp [step_endText]⟩
    rw [repeatStep_cls]
    refine ⟨mid.length, h1, h2, by simp, ?_, by simp⟩
    intro x hx
    simp at hx
    exact hmid x hx

theorem matchString_iff (s : String) :
    nameIdRegexp.MatchString s = true ↔ nameIdRegexp.step ⟨0, s.data⟩ ≠ [] := by
  simp only [Regexp.MatchString, List.any_eq_true, List.mem_range, Bool.not_eq_true',
    List.isEmpty_eq_false]
  constructor
  · rintro ⟨i, _, hi⟩
    have := (nameIdRegexp_step_ne_nil i _).1 hi
    obtain ⟨rfl, _⟩ := this
    simpa using hi
  · intro h
    exact ⟨0, by omega, by simpa using h⟩

/-- C8: `nameIdRegexp` accepts a string exactly when it has between 3 and 64
characters, its first character is an ASCII letter, every character is an
ASCII letter, an ASCII digit, an underscore or a hyphen, and its last
character is neither an underscore nor a hyphen. -/
theorem nameIdRegexp_accepts_iff (s : String) :
    nameIdRegexp.MatchString s = true ↔
      (3 ≤ s.length ∧ s.length ≤ 64 ∧
        (∃ c, s.data.head? = some c ∧ c.isAlpha = true) ∧
        (∀ c ∈ s.data, c.isAlpha = true ∨ c.isDigit = true ∨ c = '_' ∨ c = '-') ∧
        (∀ c, s.data.getLast? = some c → c ≠ '_' ∧ c ≠ '-')) := by
  rw [matchString_iff, nameIdRegexp_step_ne_nil]
  simp only [true_and, String.length]
  constructor
  · rintro ⟨c, mid, z, hl, h1, h2, hc, hmid, hz⟩
    rw [hl]
    refine ⟨by simp; omega, by simp; omega, ⟨c, by simp, (inClass_letter c).1 hc⟩, ?_, ?_⟩
    · intro x hx
      rw [← inClass_body]
      simp at hx
      rcases hx with rfl | hx | rfl
      · rw [inClass_body]; exact Or.inl ((inClass_letter _).1 hc)
      · exact hmid x hx
      · exact ((alnum_iff_body _).1 hz).1
    · intro x hx
      rw [← List.cons_append, List.getLast?_append] at hx
      simp at hx
      subst hx
      exact ((alnum_iff_body _).1 hz).2
  · rintro ⟨h3, h64, ⟨c, hhead, hc⟩, hall, hlast⟩
    cases hl : s.data with
    | nil => rw [hl] at h3; simp at h3
    | cons c' t =>
      rw [hl] at hhead h3 h64 hall hlast
      simp at hhead; subst hhead
      have ht : t ≠ [] := by
        intro h; subst h; simp at h3
      obtain ⟨mid, z, rfl⟩ : ∃ mid z, t = mid ++ [z] :=
        ⟨t.dropLast, t.getLast ht, (List.dropLast_append_getLast ht).symm⟩
      refine ⟨c', mid, z, rfl, ?_, ?_, (inClass_letter _).2 hc, ?_, ?_⟩
      · simp at h3; omega
      · simp at h64; omega
      · intro x hx
        exact (inClass_body x).2 (hall x (by simp [hx]))
      · rw [alnum_iff_body]
        refine ⟨(inClass_body z).2 (hall z (by simp)), ?_⟩
        apply hlast
        rw [← List.cons_append, List.getLast?_append]
        simp

/-! ## Answer validation -/

theorem missingRequired_eq {V : Type} (aws : Answers V) (req : List String) :
    ∀ acc, missingRequired aws req acc = acc ++ req.filter (fun id => !aws.has id) := by
  induction req with
  | nil => intro acc; simp [missingRequired]
  | cons a t ih =>
    intro acc
    simp only [missingRequired, List.filter_cons]
    split <;> simp [ih]

theorem answers_has_perm {V : Type} {a b : Answers V} (h : a.Perm b) (id : String) :
    Answers.has a id = Answers.has b id := by
  simp only [Answers.has]
  rw [Bool.eq_iff_iff]
  simp only [List.any_eq_true]
  constructor
  · rintro ⟨x, hx, hk⟩; exact ⟨x, h.mem_iff.1 hx, hk⟩
  · rintro ⟨x, hx, hk⟩; exact ⟨x, h.mem_iff.2 hx, hk⟩

theorem answersLoop_ok_iff {R V : Type} (env : CheckEnv R V) (s : Survey) (gres : R)
    (l : List (String × List V)) :
    ∀ calls, (answersLoop env s gres l calls).result = .ok () ↔
      ∀ e ∈ l, answerPasses env s gres e := by
  induction l with
  | nil => intro calls; simp [answersLoop]
  | cons e t ih =>
    intro calls
    obtain ⟨nameId, values⟩ := e
    simp only [answersLoop, List.mem_cons, forall_eq_or_imp]
    cases hp : s.NameIdPaths.get nameId with
    | none =>
      constructor
      · intro h; cases h
      · rintro ⟨⟨p, q, c, h1, _⟩, _⟩
        simp only [hp] at h1
        cases h1
    | some path =>
      dsimp only
      cases hq : ParseToQuestionType (env.Str (env.Get (env.Get gres path) "type")) with
      | error e =>
        constructor
        · intro h; cases h
        · rintro ⟨⟨p, q, c, h1, h2, _⟩, _⟩
          simp only [hp, Option.some.injEq] at h1
          subst h1
          rw [hq] at h2
          cases h2
      | ok qt =>
        dsimp only
        cases hc : env.GetQuestionChecker qt with
        | error e =>
          constructor
          · intro h; cases h
          · rintro ⟨⟨p, q, c, h1, h2, h3, _⟩, _⟩
            simp only [hp, Option.some.injEq] at h1
            subst h1
            rw [hq] at h2
            cases h2
            rw [hc] at h3
            cases h3
        | ok checker =>
          dsimp only
          cases hr : checker (env.Get gres path) values qt with
          | some err =>
            constructor
            · intro h; cases h
            · rintro ⟨⟨p, q, c, h1, h2, h3, h4⟩, _⟩
              simp only [hp, Option.some.injEq] at h1
              subst h1
              rw [hq] at h2
              cases h2
              rw [hc] at h3
              cases h3
              rw [hr] at h4
              cases h4
          | none =>
            dsimp only
            rw [ih]
            constructor
            · intro h
              exact ⟨⟨path, qt, checker, hp, hq, hc, hr⟩, h⟩
            · intro h
              exact h.2

/-- C2: on a survey whose raw text is set, `Check` succeeds exactly when every
required identifier is a key of the answers and every answer has an indexed
identifier, a type field at the stored path that parses, a registered checker
for that type, and is accepted by that checker; and success does not depend
on the order in which the answers are visited. -/
theorem Check_ok_iff {R V : Type} (env : CheckEnv R V) (s : Survey) (text : String)
    (hs : s.FullJsonSurvey = some text) (aws : Answers V) :
    ((s.Check env aws).result = .ok () ↔
      (∀ id ∈ s.RequiredNameIds, Answers.has aws id = true) ∧
      ∀ e ∈ aws, ∃ path qt checker, s.NameIdPaths.get e.1 = some path ∧
        ParseToQuestionType (env.Str (env.Get (env.Get (env.Parse text) path) "type")) = .ok qt ∧
        env.GetQuestionChecker qt = .ok checker ∧
        checker (env.Get (env.Parse text) path) e.2 qt = none) ∧
    ∀ aws2 : Answers V, aws2.Perm aws →
      ((s.Check env aws2).result = .ok () ↔ (s.Check env aws).result = .ok ()) := by
  have key : ∀ a : Answers V, (s.Check env a).result = .ok () ↔
      (∀ id ∈ s.RequiredNameIds, Answers.has a id = true) ∧
      ∀ e ∈ a, answerPasses env s (env.Parse text) e := by
    intro a
    simp only [Survey.Check, hs, missingRequired_eq, List.nil_append]
    split
    · rename_i hlen
      constructor
      · intro h; cases h
      · rintro ⟨hall, _⟩
        exfalso
        have : s.RequiredNameIds.filter (fun id => !Answers.has a id) = [] := by
          rw [List.filter_eq_nil_iff]
          intro x hx
          simp [hall x hx]
        rw [this] at hlen
        simp at hlen
    · rename_i hlen
      rw [answersLoop_ok_iff]
      have : s.RequiredNameIds.filter (fun id => !Answers.has a id) = [] := by
        apply List.eq_nil_of_length_eq_zero
        omega
      rw [List.filter_eq_nil_iff] at this
      constructor
      · intro h
        refine ⟨?_, h⟩
        intro id hid
        have := this id hid
        simpa using this
      · intro h; exact h.2
  refine ⟨key aws, ?_⟩
  intro aws2 hp
  rw [key, key]
  constructor
  · rintro ⟨h1, h2⟩
    exact ⟨fun id hid => (answers_has_perm hp id) ▸ h1 id hid, fun e he => h2 e (hp.mem_iff.2 he)⟩
  · rintro ⟨h1, h2⟩
    exact ⟨fun id hid => (answers_has_perm hp id) ▸ h1 id hid, fun e he => h2 e (hp.mem_iff.1 he)⟩

/-- C3: on a survey whose raw text is set, when some required identifier is not
a key of the answers, `Check` fails with the one missing-required-answers
error that lists the required identifiers that are not answered, in the order
of the required list and no others, whatever else the answers hold, and no
checker is invoked. -/
theorem Check_missing_required {R V : Type} (env : CheckEnv R V) (s : Survey) (text : String)
    (hs : s.FullJsonSurvey = some text) (aws : Answers V)
    (hmiss : ∃ id ∈ s.RequiredNameIds, Answers.has aws id = false) :
    (s.Check env aws).result =
        .error ("missing required answers: " ++
          ", ".intercalate (s.RequiredNameIds.filter (fun id => !Answers.has aws id))) ∧
      (s.Check env aws).calls = [] := by
  obtain ⟨id, hid, hhas⟩ := hmiss
  have hne : 0 < (s.RequiredNameIds.filter (fun id => !Answers.has aws id)).length := by
    apply List.length_pos_of_mem (a := id)
    simp [List.mem_filter, hid, hhas]
  simp only [Survey.Check, hs, missingRequired_eq, List.nil_append]
  rw [if_pos (by simpa using hne)]
  simp


/-! ## The identifier index -/

theorem nodeIds_append (a b : List (Question × List String)) :
    nodeIds (a ++ b) = nodeIds a ++ nodeIds b := by
  simp [nodeIds]

mutual
theorem GetNameIdPaths_ok (g : GrowPolicy) : ∀ (q : Question) (frm : Slice) (h : Heap)
    (p : List String), q.WellFormed = true →
    TraversalOk (q.GetNameIdPaths g frm h) (q.nodesAt p)
  | .mk base value, frm, h, p, hwf => by
    simp only [Question.WellFormed, Bool.and_eq_true] at hwf
    obtain ⟨hid, ht⟩ := hwf
    cases hn : base.NameId with
    | none => simp [hn] at hid
    | some nameId =>
      cases hq : base.QTyp with
      | none => simp [hq] at ht
      | some t =>
        simp only [hq] at ht
        by_cases hc : isChoiceType t = true
        · simp only [hc, if_true] at ht
          obtain ⟨ps, h1, e1, e2, e3⟩ := getChoiceNameIdPaths_ok g value frm h p ht
          refine ⟨⟨nameId, frm, false⟩ :: ps, h1, ?_, ?_, ?_⟩
          · simp [Question.GetNameIdPaths, hn, hq, hc, e1]
          · simp [Question.nodesAt, nodeIds, Question.NameId, Question.base, hn]
            simpa [nodeIds] using e2
          · intro ip hip
            simp at hip
            rcases hip with rfl | hip
            · rfl
            · exact e3 ip hip
        · simp only [hc] at ht
          simp at ht
          refine ⟨[⟨nameId, frm, false⟩], h, ?_, ?_, ?_⟩
          · simp [Question.GetNameIdPaths, hn, hq, hc]
          · cases value with
            | textArea t => simp [Question.nodesAt, QValue.nodesAt, nodeIds, Question.NameId, Question.base, hn]
            | nil => simp [QValue.isTextArea] at ht
            | choice c => simp [QValue.isTextArea] at ht
          · simp
theorem getChoiceNameIdPaths_ok (g : GrowPolicy) : ∀ (v : QValue) (frm : Slice) (h : Heap)
    (p : List String), QValue.choiceWellFormed v = true →
    TraversalOk (getChoiceNameIdPaths g v frm h) (QValue.nodesAt v p)
  | .choice (.mk opts), frm, h, p, hwf => by
    simp only [QValue.choiceWellFormed] at hwf
    simp only [getChoiceNameIdPaths, QValue.nodesAt]
    exact optionsLoop_ok g opts 0 _ _ p hwf
  | .nil, _, _, _, hwf => by simp [QValue.choiceWellFormed] at hwf
  | .textArea _, _, _, _, hwf => by simp [QValue.choiceWellFormed] at hwf
theorem optionsLoop_ok (g : GrowPolicy) : ∀ (os : List ChoiceOption) (oi : Nat) (cp : Slice)
    (h : Heap) (p : List String), optionsWellFormed os = true →
    TraversalOk (optionsLoop g os oi cp h) (optionsNodesAt os oi p)
  | [], oi, cp, h, p, _ => ⟨[], h, by simp [optionsLoop], by simp [optionsNodesAt, nodeIds], by simp⟩
  | (.mk _ _ _ _ subs) :: rest, oi, cp, h, p, hwf => by
    simp only [optionsWellFormed, Bool.and_eq_true] at hwf
    obtain ⟨ps, h1, e1, e2, e3⟩ := subQuestionsLoop_ok g subs oi 0 cp h p hwf.1
    obtain ⟨ps2, h2, f1, f2, f3⟩ := optionsLoop_ok g rest (oi + 1) cp h1 p hwf.2
    refine ⟨ps ++ ps2, h2, ?_, ?_, ?_⟩
    · simp [optionsLoop, e1, f1]
    · simp [optionsNodesAt, nodeIds_append, e2, f2]
    · intro ip hip
      rcases List.mem_append.1 hip with hip | hip
      · exact e3 ip hip
      · exact f3 ip hip
theorem subQuestionsLoop_ok (g : GrowPolicy) : ∀ (qs : List Question) (oi si : Nat) (cp : Slice)
    (h : Heap) (p : List String), questionsWellFormed qs = true →
    TraversalOk (subQuestionsLoop g qs oi si cp h) (subQuestionsNodesAt qs oi si p)
  | [], oi, si, cp, h, p, _ =>
    ⟨[], h, by simp [subQuestionsLoop], by simp [subQuestionsNodesAt, nodeIds], by simp⟩
  | q :: rest, oi, si, cp, h, p, hwf => by
    simp only [questionsWellFormed, Bool.and_eq_true] at hwf
    obtain ⟨ps, h1, e1, e2, e3⟩ := GetNameIdPaths_ok g q
      (goAppend g h cp [toString oi, "subQuestions", toString si]).1
      (goAppend g h cp [toString oi, "subQuestions", toString si]).2
      (p ++ ["value", "options", toString oi, "subQuestions", toString si]) hwf.1
    obtain ⟨ps2, h2, f1, f2, f3⟩ := subQuestionsLoop_ok g rest oi (si + 1) cp h1 p hwf.2
    refine ⟨ps ++ ps2, h2, ?_, ?_, ?_⟩
    · simp [subQuestionsLoop, e1, f1]
    · simp [subQuestionsNodesAt, nodeIds_append, e2, f2]
    · intro ip hip
      rcases List.mem_append.1 hip with hip | hip
      · exact e3 ip hip
      · exact f3 ip hip
end

theorem get_isSome_iff_mem_keys (m : GoMap) (k : String) :
    (GoMap.get m k).isSome = true ↔ k ∈ mapKeys m := by
  induction m with
  | nil => simp [GoMap.get, mapKeys, List.lookup]
  | cons e t ih =>
    obtain ⟨a, b⟩ := e
    simp only [GoMap.get, mapKeys, List.lookup, List.map_cons, List.mem_cons] at ih ⊢
    by_cases hk : k = a
    · subst hk; simp
    · have : (k == a) = false := by simpa using hk
      simp only [this, hk, false_or]
      exact ih

theorem get_isSome_false_of_not_mem (m : GoMap) (k : String) (h : k ∉ mapKeys m) :
    (GoMap.get m k).isSome = false := by
  cases hv : (GoMap.get m k).isSome with
  | false => rfl
  | true => exact absurd ((get_isSome_iff_mem_keys m k).1 hv) h

theorem mapKeys_set_new (m : GoMap) (k v : String) (h : k ∉ mapKeys m) :
    mapKeys (GoMap.set m k v) = mapKeys m ++ [k] := by
  have := get_isSome_false_of_not_mem m k h
  simp only [GoMap.get] at this
  simp [GoMap.set, this, mapKeys]

theorem indexLoop_spec (h : Heap) : ∀ (ps : List NameIdPath) (paths : GoMap) (req : List String),
    (mapKeys paths).Nodup → (∀ ip ∈ ps, ip.Required = false) →
    (∃ m, indexLoop h ps paths req = .ok (m, req) ∧
        mapKeys m = mapKeys paths ++ ps.map NameIdPath.NameId ∧ (mapKeys m).Nodup) ∨
    (∃ pre id post, ps.map NameIdPath.NameId = pre ++ id :: post ∧ id ∈ mapKeys paths ++ pre ∧
        (mapKeys paths ++ pre).Nodup ∧
        indexLoop h ps paths req = .error ("duplicate nameId: " ++ id)) := by
  intro ps
  induction ps with
  | nil =>
    intro paths req hnd _
    left
    exact ⟨paths, by simp [indexLoop], by simp, hnd⟩
  | cons ip rest ih =>
    intro paths req hnd hreq
    by_cases hk : ip.NameId ∈ mapKeys paths
    · right
      refine ⟨[], ip.NameId, rest.map NameIdPath.NameId, by simp, by simpa using hk,
        by simpa using hnd, ?_⟩
      simp [indexLoop, (get_isSome_iff_mem_keys paths ip.NameId).2 hk]
    · have hget := get_isSome_false_of_not_mem paths ip.NameId hk
      have hr : ip.Required = false := hreq ip (by simp)
      have hkeys := mapKeys_set_new paths ip.NameId (".".intercalate (h.read ip.Path)) hk
      have hnd2 : (mapKeys (GoMap.set paths ip.NameId (".".intercalate (h.read ip.Path)))).Nodup := by
        rw [hkeys, List.nodup_append]
        exact ⟨hnd, by simp, by simpa using hk⟩
      have hstep : indexLoop h (ip :: rest) paths req =
          indexLoop h rest (GoMap.set paths ip.NameId (".".intercalate (h.read ip.Path))) req := by
        simp [indexLoop, hget, hr]
      rcases ih (GoMap.set paths ip.NameId (".".intercalate (h.read ip.Path))) req hnd2
        (fun x hx => hreq x (by simp [hx])) with ⟨m, e1, e2, e3⟩ | ⟨pre, id, post, e1, e2, e3, e4⟩
      · left
        exact ⟨m, by rw [hstep, e1], by rw [e2, hkeys]; simp, e3⟩
      · right
        refine ⟨ip.NameId :: pre, id, post, by simp [e1], ?_, ?_, by rw [hstep, e4]⟩
        · rw [hkeys] at e2; simpa using e2
        · rw [hkeys] at e3; simpa using e3

theorem questionsLoop_spec (g : GrowPolicy) (startPath : Slice) :
    ∀ (qs : List Question) (i : Nat) (h : Heap) (paths : GoMap) (req : List String),
    questionsWellFormed qs = true → (mapKeys paths).Nodup →
    ∃ r, questionsLoop g startPath qs i h paths req = some r ∧
      ((∃ m, r = ⟨some m, some req, none⟩ ∧
          mapKeys m = mapKeys paths ++ nodeIds (questionsNodesAt qs i) ∧ (mapKeys m).Nodup) ∨
       (∃ pre id post, nodeIds (questionsNodesAt qs i) = pre ++ id :: post ∧
          id ∈ mapKeys paths ++ pre ∧ (mapKeys paths ++ pre).Nodup ∧
          r = ⟨none, none, some ("duplicate nameId: " ++ id)⟩)) := by
  intro qs
  induction qs with
  | nil =>
    intro i h paths req _ hnd
    exact ⟨_, by simp [questionsLoop], Or.inl ⟨paths, rfl, by simp [questionsNodesAt, nodeIds], hnd⟩⟩
  | cons q rest ih =>
    intro i h paths req hwf hnd
    simp only [questionsWellFormed, Bool.and_eq_true] at hwf
    obtain ⟨ps, h1, e1, e2, e3⟩ := GetNameIdPaths_ok g q (goAppend g h startPath [toString i]).1
      (goAppend g h startPath [toString i]).2 ["questions", toString i] hwf.1
    rcases indexLoop_spec h1 ps paths req hnd e3 with ⟨m, f1, f2, f3⟩ | ⟨pre, id, post, f1, f2, f3, f4⟩
    · obtain ⟨r, k1, k2⟩ := ih (i + 1) h1 m req hwf.2 f3
      refine ⟨r, by simp [questionsLoop, e1, f1, k1], ?_⟩
      rcases k2 with ⟨m2, a1, a2, a3⟩ | ⟨pre, id, post, a1, a2, a3, a4⟩
      · left
        refine ⟨m2, a1, ?_, a3⟩
        rw [a2, f2, e2]
        simp [questionsNodesAt, nodeIds_append]
      · right
        refine ⟨nodeIds (q.nodesAt ["questions", toString i]) ++ pre, id, post, ?_, ?_, ?_, a4⟩
        · simp [questionsNodesAt, nodeIds_append, a1]
        · rw [f2, e2] at a2; simpa using a2
        · rw [f2, e2] at a3; simpa using a3
    · refine ⟨⟨none, none, some ("duplicate nameId: " ++ id)⟩, by simp [questionsLoop, e1, f4], ?_⟩
      right
      refine ⟨pre, id, post ++ nodeIds (questionsNodesAt rest (i + 1)), ?_, f2, f3, rfl⟩
      simp [questionsNodesAt, nodeIds_append, ← e2, f1]

theorem getNameIdPaths_spec (g : GrowPolicy) (s : jsonSurvey)
    (hwf : questionsWellFormed s.Questions = true) :
    ∃ r, s.getNameIdPaths g = some r ∧
      ((∃ m, r = ⟨some m, some [], none⟩ ∧ mapKeys m = s.nameIds ∧ s.nameIds.Nodup) ∨
       (∃ pre id post, s.nameIds = pre ++ id :: post ∧ id ∈ pre ∧ pre.Nodup ∧
          r = ⟨none, none, some ("duplicate nameId: " ++ id)⟩)) := by
  obtain ⟨r, h1, h2⟩ := questionsLoop_spec g ⟨0, 1, 1⟩ s.Questions 0 [["questions"]] [] []
    hwf (by simp [mapKeys])
  refine ⟨r, h1, ?_⟩
  have hids : nodeIds (questionsNodesAt s.Questions 0) = s.nameIds := by
    simp [jsonSurvey.nameIds, jsonSurvey.nodes, nodeIds]
  rw [hids] at h2
  rcases h2 with ⟨m, a1, a2, a3⟩ | ⟨pre, id, post, a1, a2, a3, a4⟩
  · left
    have : mapKeys m = s.nameIds := by
      rw [a2]; simp [mapKeys]
    exact ⟨m, a1, this, this ▸ a3⟩
  · right
    exact ⟨pre, id, post, a1, by simpa [mapKeys] using a2, by simpa [mapKeys] using a3, a4⟩


/-! ## Parsing -/

theorem UnmarshalJSON_eq (env : PartEnv) (b : Json) :
    Question.UnmarshalJSON env b = unmarshalQuestion env b (choiceValueOf env b) := by
  cases b <;> simp [Question.UnmarshalJSON, choiceValueOf]

/-- C9: when the base fields decode and the identifier is present but does not
match the pattern, `UnmarshalJSON` returns the invalid-nameId error, whatever
the type tag, the value and the validators are. -/
theorem UnmarshalJSON_invalid_nameId (env : PartEnv) (b : Json) (bq : baseQuestion)
    (nameId : String) (hdec : decodeBase b = .ok bq) (hid : bq.NameId = some nameId)
    (hbad : nameIdRegexp.MatchString nameId = false) :
    Question.UnmarshalJSON env b =
      .error ("invalid nameId '" ++ nameId ++ "', must match " ++ nameIdRegexpString) := by
  rw [UnmarshalJSON_eq]
  simp [unmarshalQuestion, hdec, hid, hbad]

theorem getQuestionByValueTyp_ok {T : Type} (inj : T → QValue)
    (u : Outcome (baseQuestion × Option T)) (val : T → Option String) (q : Question)
    (h : wrapQuestionError n (getQuestionByValueTyp inj u val) = .ok q) :
    ∃ bq v, u = .ok (bq, some v) ∧ val v = none ∧ q = .mk bq (inj v) := by
  cases u with
  | panicked => simp [getQuestionByValueTyp, wrapQuestionError] at h
  | error e => simp [getQuestionByValueTyp, wrapQuestionError] at h
  | ok r =>
    obtain ⟨bq, v⟩ := r
    cases v with
    | none => simp [getQuestionByValueTyp, wrapQuestionError] at h
    | some v =>
      cases hv : val v with
      | some e => simp [getQuestionByValueTyp, wrapQuestionError, hv] at h
      | none =>
        simp [getQuestionByValueTyp, wrapQuestionError, hv] at h
        exact ⟨bq, v, rfl, hv, h.symm⟩

theorem unmarshalTyped_ok {T : Type} (b : Json) (value : Outcome (Option T × Bool))
    (bq : baseQuestion) (v : Option T) (h : unmarshalTyped b value = .ok (bq, v)) :
    decodeBase b = .ok bq ∧ value = .ok (v, false) := by
  cases value with
  | panicked => simp [unmarshalTyped] at h
  | error e => simp [unmarshalTyped] at h
  | ok r =>
    obtain ⟨v0, bad⟩ := r
    cases hd : decodeBase b with
    | error e => simp [unmarshalTyped, hd] at h
    | ok bq0 =>
      cases bad with
      | true => simp [unmarshalTyped, hd] at h
      | false =>
        simp [unmarshalTyped, hd] at h
        simp [h.1, h.2]

/-- The shape of a successfully parsed question. -/
theorem unmarshalQuestion_ok (env : PartEnv) (b : Json) (cv : Outcome (Option Choice × Bool))
    (q : Question) (h : unmarshalQuestion env b cv = .ok q) :
    ∃ bq nameId t, decodeBase b = .ok bq ∧ bq.NameId = some nameId ∧
      nameIdRegexp.MatchString nameId = true ∧ bq.QTyp = some t ∧
      ((isChoiceType t = true ∧ ∃ c, cv = .ok (some c, false) ∧
          env.ChoiceUnmarshallValidator c = none ∧ q = .mk bq (.choice c)) ∨
       (isChoiceType t = false ∧ t = QTypeTextArea ∧ ∃ ta,
          env.TextAreaUnmarshallValidator ta = none ∧ q = .mk bq (.textArea ta))) := by
  unfold unmarshalQuestion at h
  cases hd : decodeBase b with
  | error e => simp [hd] at h
  | ok bq =>
    simp only [hd] at h
    cases hn : bq.NameId with
    | none => simp [hn] at h
    | some nameId =>
      simp only [hn] at h
      cases hm : nameIdRegexp.MatchString nameId with
      | false => simp [hm] at h
      | true =>
        simp only [hm, Bool.not_true, Bool.false_eq_true, if_false] at h
        cases hq : bq.QTyp with
        | none => simp [hq] at h
        | some t =>
          simp only [hq] at h
          refine ⟨bq, nameId, t, rfl, hn, hm, hq, ?_⟩
          cases hc : isChoiceType t with
          | true =>
            simp only [hc, if_true] at h
            obtain ⟨bq1, c, e1, e2, e3⟩ := getQuestionByValueTyp_ok _ _ _ _ h
            obtain ⟨f1, f2⟩ := unmarshalTyped_ok _ _ _ _ e1
            rw [hd] at f1
            cases f1
            exact Or.inl ⟨rfl, c, f2, e2, e3⟩
          | false =>
            simp only [hc, Bool.false_eq_true, if_false] at h
            by_cases ht : (t == QTypeTextArea) = true
            · simp only [ht, if_true] at h
              obtain ⟨bq1, ta, e1, e2, e3⟩ := getQuestionByValueTyp_ok _ _ _ _ h
              obtain ⟨f1, f2⟩ := unmarshalTyped_ok _ _ _ _ e1
              rw [hd] at f1
              cases f1
              exact Or.inr ⟨rfl, by simpa using ht, ta, e2, e3⟩
            · simp [ht] at h

theorem optionsWellFormed_cons (o : ChoiceOption) (os : List ChoiceOption) :
    optionsWellFormed (o :: os) = (o.wf && optionsWellFormed os) := by
  cases o; simp [optionsWellFormed, ChoiceOption.wf]

theorem zero_wf : ChoiceOption.zero.wf = true := by
  simp [ChoiceOption.zero, ChoiceOption.wf, questionsWellFormed]

theorem parsedWf_obj (env : PartEnv) (ms : List (String × Json))
    (hv : ValueMembersWf env ms) : ParsedWf env (.obj ms) := by
  intro q h
  rw [UnmarshalJSON_eq] at h
  obtain ⟨bq, nameId, t, _, hn, _, hq, hcase⟩ := unmarshalQuestion_ok env _ _ q h
  rcases hcase with ⟨hc, c, hcv, _, rfl⟩ | ⟨hc, ht, ta, _, rfl⟩
  · have := hv none false (some c) false (by simp) hcv c rfl
    cases c with
    | mk opts =>
      simp [Question.WellFormed, hn, hq, hc, QValue.choiceWellFormed]
      simpa [Choice.wf] using this
  · subst ht
    simp [Question.WellFormed, hn, hq, hc, QValue.isTextArea]

theorem parsedWf_of_not_obj (env : PartEnv) (b : Json) (hb : ∀ ms, b ≠ .obj ms) :
    ParsedWf env b := by
  intro q h
  rw [UnmarshalJSON_eq] at h
  obtain ⟨bq, nameId, t, _, hn, _, hq, hcase⟩ := unmarshalQuestion_ok env _ _ q h
  rcases hcase with ⟨hc, c, hcv, _, rfl⟩ | ⟨hc, ht, ta, _, rfl⟩
  · cases b with
    | obj ms => exact absurd rfl (hb ms)
    | null => simp [choiceValueOf] at hcv
    | bool _ => simp [choiceValueOf] at hcv
    | num _ => simp [choiceValueOf] at hcv
    | str _ => simp [choiceValueOf] at hcv
    | arr _ => simp [choiceValueOf] at hcv
  · subst ht
    simp [Question.WellFormed, hn, hq, hc, QValue.isTextArea]

theorem storeValueChoice_wf (k : String) (v : Json) (cur : Option Choice)
    (nested : Outcome (Choice × Bool)) (cur1 : Option Choice) (bad1 : Bool)
    (hcur : ∀ c, cur = some c → c.wf = true)
    (hn : ∀ c b, nested = .ok (c, b) → c.wf = true)
    (h : storeValueChoice k v cur nested = .ok (cur1, bad1)) :
    ∀ c, cur1 = some c → c.wf = true := by
  have hgetD : (cur.getD (.mk [])).wf = true := by
    cases cur with
    | none => simp [Choice.wf, optionsWellFormed]
    | some c0 => simpa using hcur c0 rfl
  unfold storeValueChoice at h
  by_cases hk : fieldMatches k "value" = true
  · rw [if_pos hk] at h
    cases v with
    | null => simp at h; rw [← h.1]; simp
    | obj ms =>
      cases nested with
      | panicked => simp at h
      | error e => simp at h
      | ok p =>
        obtain ⟨c, b⟩ := p
        simp at h
        intro c2 hc2
        rw [← h.1] at hc2
        cases hc2
        exact hn c b rfl
    | bool _ => simp at h; intro c hc; rw [← h.1] at hc; cases hc; exact hgetD
    | num _ => simp at h; intro c hc; rw [← h.1] at hc; cases hc; exact hgetD
    | str _ => simp at h; intro c hc; rw [← h.1] at hc; cases hc; exact hgetD
    | arr _ => simp at h; intro c hc; rw [← h.1] at hc; cases hc; exact hgetD
  · rw [if_neg hk] at h
    simp at h
    rw [← h.1]; exact hcur

theorem storeChoiceMember_wf (k : String) (v : Json) (c : Choice)
    (nested : Outcome (List ChoiceOption × Bool)) (c1 : Choice) (bad1 : Bool)
    (hc : c.wf = true)
    (hn : ∀ opts b, nested = .ok (opts, b) → optionsWellFormed opts = true)
    (h : storeChoiceMember k v c nested = .ok (c1, bad1)) : c1.wf = true := by
  unfold storeChoiceMember at h
  by_cases hk : fieldMatches k "options" = true
  · rw [if_pos hk] at h
    cases v with
    | null => simp at h; rw [← h.1]; simp [Choice.wf, optionsWellFormed]
    | arr items =>
      cases nested with
      | panicked => simp at h
      | error e => simp at h
      | ok p =>
        obtain ⟨opts, b⟩ := p
        simp at h
        rw [← h.1]
        simpa [Choice.wf] using hn opts b rfl
    | bool _ => simp at h; rw [← h.1]; exact hc
    | num _ => simp at h; rw [← h.1]; exact hc
    | str _ => simp at h; rw [← h.1]; exact hc
    | obj _ => simp at h; rw [← h.1]; exact hc
  · rw [if_neg hk] at h
    simp at h
    rw [← h.1]; exact hc

theorem storeOptionMember_wf (k : String) (v : Json) (o : ChoiceOption)
    (nested : Outcome (List Question)) (o1 : ChoiceOption) (bad1 : Bool)
    (ho : o.wf = true)
    (hn : ∀ qs, nested = .ok qs → questionsWellFormed qs = true)
    (h : storeOptionMember k v o nested = .ok (o1, bad1)) : o1.wf = true := by
  obtain ⟨id, label, order, required, subs⟩ := o
  have hany : ∀ (a b : Option String) (c : Option Int) (d : Bool),
      (ChoiceOption.mk a b c d subs).wf = true := by
    intro a b c d; simpa [ChoiceOption.wf] using ho
  unfold storeOptionMember at h
  simp only at h
  by_cases h1 : fieldMatches k "id" = true
  · rw [if_pos h1] at h
    cases hs : storeStringPtr v <;> simp [hs] at h <;> rw [← h.1] <;> exact hany _ _ _ _
  rw [if_neg h1] at h
  by_cases h2 : fieldMatches k "label" = true
  · rw [if_pos h2] at h
    cases hs : storeStringPtr v <;> simp [hs] at h <;> rw [← h.1] <;> exact hany _ _ _ _
  rw [if_neg h2] at h
  by_cases h3 : fieldMatches k "order" = true
  · rw [if_pos h3] at h
    cases hs : storeIntPtr v <;> simp [hs] at h <;> rw [← h.1] <;> exact hany _ _ _ _
  rw [if_neg h3] at h
  by_cases h4 : fieldMatches k "required" = true
  · rw [if_pos h4] at h
    cases hs : storeBool required v <;> simp [hs] at h <;> rw [← h.1] <;> exact hany _ _ _ _
  rw [if_neg h4] at h
  by_cases h5 : fieldMatches k "subQuestions" = true
  · rw [if_pos h5] at h
    cases v with
    | null => simp at h; rw [← h.1]; simp [ChoiceOption.wf, questionsWellFormed]
    | arr items =>
      cases nested with
      | panicked => simp at h
      | error e => simp at h
      | ok qs =>
        simp at h
        rw [← h.1]
        simpa [ChoiceOption.wf] using hn qs rfl
    | bool _ => simp at h; rw [← h.1]; exact hany _ _ _ _
    | num _ => simp at h; rw [← h.1]; exact hany _ _ _ _
    | str _ => simp at h; rw [← h.1]; exact hany _ _ _ _
    | obj _ => simp at h; rw [← h.1]; exact hany _ _ _ _
  rw [if_neg h5] at h
  simp at h
  rw [← h.1]; exact hany _ _ _ _

theorem valueMembersWf_nil (env : PartEnv) : ValueMembersWf env [] := by
  intro cur bad r bad1 hcur h
  rw [valueChoiceMembers.eq_def] at h
  simp at h
  rw [← h.1]; exact hcur

theorem valueMembersWf_cons (env : PartEnv) (k : String) (v : Json)
    (rest : List (String × Json)) (hv : JsonWf env v) (hrest : ValueMembersWf env rest) :
    ValueMembersWf env ((k, v) :: rest) := by
  intro cur bad r bad1 hcur h
  rw [valueChoiceMembers.eq_def] at h
  simp only at h
  have hgetD : (cur.getD (.mk [])).wf = true := by
    cases cur with
    | none => simp [Choice.wf, optionsWellFormed]
    | some c0 => simpa using hcur c0 rfl
  cases hst : storeValueChoice k v cur (choiceOfValue env v (cur.getD (.mk []))) with
  | panicked => simp [hst] at h
  | error e => simp [hst] at h
  | ok p =>
    obtain ⟨cur1, b1⟩ := p
    simp only [hst] at h
    have := storeValueChoice_wf k v cur _ cur1 b1 hcur
      (fun c b hc => hv.2.1 _ c b hgetD hc) hst
    exact hrest cur1 _ r bad1 this h

theorem choiceMembersWf_nil (env : PartEnv) : ChoiceMembersWf env [] := by
  intro c0 bad c bad1 h0 h
  rw [choiceMembers.eq_def] at h
  simp at h
  rw [← h.1]; exact h0

theorem choiceMembersWf_cons (env : PartEnv) (k : String) (v : Json)
    (rest : List (String × Json)) (hv : JsonWf env v) (hrest : ChoiceMembersWf env rest) :
    ChoiceMembersWf env ((k, v) :: rest) := by
  intro c0 bad c bad1 h0 h
  rw [choiceMembers.eq_def] at h
  simp only at h
  cases hst : storeChoiceMember k v c0 (optionsOfValue env v) with
  | panicked => simp [hst] at h
  | error e => simp [hst] at h
  | ok p =>
    obtain ⟨c1, b1⟩ := p
    simp only [hst] at h
    have := storeChoiceMember_wf k v c0 _ c1 b1 h0 (fun opts b ho => hv.2.2.1 opts b ho) hst
    exact hrest c1 _ c bad1 this h

theorem optionMembersWf_nil (env : PartEnv) : OptionMembersWf env [] := by
  intro o0 bad o bad1 h0 h
  rw [optionMembers.eq_def] at h
  simp at h
  rw [← h.1]; exact h0

theorem optionMembersWf_cons (env : PartEnv) (k : String) (v : Json)
    (rest : List (String × Json)) (hv : JsonWf env v) (hrest : OptionMembersWf env rest) :
    OptionMembersWf env ((k, v) :: rest) := by
  intro o0 bad o bad1 h0 h
  rw [optionMembers.eq_def] at h
  simp only at h
  cases hst : storeOptionMember k v o0 (subQuestionsOfValue env v) with
  | panicked => simp [hst] at h
  | error e => simp [hst] at h
  | ok p =>
    obtain ⟨o1, b1⟩ := p
    simp only [hst] at h
    have := storeOptionMember_wf k v o0 _ o1 b1 h0 (fun qs hq => hv.2.2.2.2 qs hq) hst
    exact hrest o1 _ o bad1 this h

theorem optionItemsWf_nil (env : PartEnv) : OptionItemsWf env [] := by
  intro opts bad h
  rw [optionItems.eq_def] at h
  simp at h
  rw [h.1]; simp [optionsWellFormed]

theorem optionItemsWf_cons (env : PartEnv) (item : Json) (rest : List Json)
    (hv : JsonWf env item) (hrest : OptionItemsWf env rest) :
    OptionItemsWf env (item :: rest) := by
  intro opts bad h
  rw [optionItems.eq_def] at h
  simp only at h
  cases hi : optionOfItem env item with
  | panicked => simp [hi] at h
  | error e => simp [hi] at h
  | ok p =>
    obtain ⟨o, b⟩ := p
    simp only [hi] at h
    cases hr : optionItems env rest with
    | panicked => simp [hr] at h
    | error e => simp [hr] at h
    | ok p2 =>
      obtain ⟨os, b1⟩ := p2
      simp [hr] at h
      have h1 := hv.2.2.2.1 o b hi
      have h2 := hrest os b1 hr
      rw [← h.1, optionsWellFormed_cons, h1, h2]; rfl

theorem subQuestionItemsWf_nil (env : PartEnv) : SubQuestionItemsWf env [] := by
  intro qs h
  rw [subQuestionItems.eq_def] at h
  simp at h
  rw [h]; simp [questionsWellFormed]

theorem subQuestionItemsWf_cons (env : PartEnv) (item : Json) (rest : List Json)
    (hv : JsonWf env item) (hrest : SubQuestionItemsWf env rest) :
    SubQuestionItemsWf env (item :: rest) := by
  intro qs h
  rw [subQuestionItems.eq_def] at h
  simp only at h
  cases hq : Question.UnmarshalJSON env item with
  | panicked => simp [hq] at h
  | error e => simp [hq] at h
  | ok q =>
    simp only [hq] at h
    cases hr : subQuestionItems env rest with
    | panicked => simp [hr] at h
    | error e => simp [hr] at h
    | ok qs1 =>
      simp [hr] at h
      have h1 := hv.1 q hq
      have h2 := hrest qs1 hr
      rw [← h]; simp [questionsWellFormed, h1, h2]

theorem jsonWf_scalar (env : PartEnv) (b : Json) (h1 : ∀ ms, b ≠ .obj ms)
    (h2 : ∀ items, b ≠ .arr items) : JsonWf env b := by
  refine ⟨parsedWf_of_not_obj env b h1, ?_, ?_, ?_, ?_⟩
  · intro c0 c bad hc0 h
    cases b with
    | obj ms => exact absurd rfl (h1 ms)
    | null => rw [choiceOfValue.eq_def] at h; simp at h; rw [← h.1]; exact hc0
    | bool _ => rw [choiceOfValue.eq_def] at h; simp at h; rw [← h.1]; exact hc0
    | num _ => rw [choiceOfValue.eq_def] at h; simp at h; rw [← h.1]; exact hc0
    | str _ => rw [choiceOfValue.eq_def] at h; simp at h; rw [← h.1]; exact hc0
    | arr _ => rw [choiceOfValue.eq_def] at h; simp at h; rw [← h.1]; exact hc0
  · intro opts bad h
    cases b with
    | arr items => exact absurd rfl (h2 items)
    | null => rw [optionsOfValue.eq_def] at h; simp at h; rw [h.1]; simp [optionsWellFormed]
    | bool _ => rw [optionsOfValue.eq_def] at h; simp at h; rw [h.1]; simp [optionsWellFormed]
    | num _ => rw [optionsOfValue.eq_def] at h; simp at h; rw [h.1]; simp [optionsWellFormed]
    | str _ => rw [optionsOfValue.eq_def] at h; simp at h; rw [h.1]; simp [optionsWellFormed]
    | obj _ => rw [optionsOfValue.eq_def] at h; simp at h; rw [h.1]; simp [optionsWellFormed]
  · intro o bad h
    cases b with
    | obj ms => exact absurd rfl (h1 ms)
    | null => rw [optionOfItem.eq_def] at h; simp at h; rw [← h.1]; exact zero_wf
    | bool _ => rw [optionOfItem.eq_def] at h; simp at h; rw [← h.1]; exact zero_wf
    | num _ => rw [optionOfItem.eq_def] at h; simp at h; rw [← h.1]; exact zero_wf
    | str _ => rw [optionOfItem.eq_def] at h; simp at h; rw [← h.1]; exact zero_wf
    | arr _ => rw [optionOfItem.eq_def] at h; simp at h; rw [← h.1]; exact zero_wf
  · intro qs h
    cases b with
    | arr items => exact absurd rfl (h2 items)
    | null => rw [subQuestionsOfValue.eq_def] at h; simp at h; rw [h]; simp [questionsWellFormed]
    | bool _ => rw [subQuestionsOfValue.eq_def] at h; simp at h; rw [h]; simp [questionsWellFormed]
    | num _ => rw [subQuestionsOfValue.eq_def] at h; simp at h; rw [h]; simp [questionsWellFormed]
    | str _ => rw [subQuestionsOfValue.eq_def] at h; simp at h; rw [h]; simp [questionsWellFormed]
    | obj _ => rw [subQuestionsOfValue.eq_def] at h; simp at h; rw [h]; simp [questionsWellFormed]

theorem jsonWf_arr (env : PartEnv) (items : List Json)
    (ih : OptionItemsWf env items ∧ SubQuestionItemsWf env items) :
    JsonWf env (.arr items) := by
  refine ⟨parsedWf_of_not_obj env _ (by intro ms h; cases h), ?_, ?_, ?_, ?_⟩
  · intro c0 c bad hc0 h
    rw [choiceOfValue.eq_def] at h; simp at h; rw [← h.1]; exact hc0
  · intro opts bad h
    rw [optionsOfValue.eq_def] at h
    exact ih.1 opts bad h
  · intro o bad h
    rw [optionOfItem.eq_def] at h; simp at h; rw [← h.1]; exact zero_wf
  · intro qs h
    rw [subQuestionsOfValue.eq_def] at h
    exact ih.2 qs h

theorem jsonWf_obj (env : PartEnv) (ms : List (String × Json))
    (ih : ValueMembersWf env ms ∧ ChoiceMembersWf env ms ∧ OptionMembersWf env ms) :
    JsonWf env (.obj ms) := by
  refine ⟨parsedWf_obj env ms ih.1, ?_, ?_, ?_, ?_⟩
  · intro c0 c bad hc0 h
    rw [choiceOfValue.eq_def] at h
    exact ih.2.1 c0 false c bad hc0 h
  · intro opts bad h
    rw [optionsOfValue.eq_def] at h; simp at h; rw [h.1]; simp [optionsWellFormed]
  · intro o bad h
    rw [optionOfItem.eq_def] at h
    exact ih.2.2 _ false o bad zero_wf h
  · intro qs h
    rw [subQuestionsOfValue.eq_def] at h; simp at h; rw [h]; simp [questionsWellFormed]

theorem jsonWf_all (env : PartEnv) (b : Json) : JsonWf env b := by
  refine @Json.rec (JsonWf env)
    (fun items => OptionItemsWf env items ∧ SubQuestionItemsWf env items)
    (fun ms => ValueMembersWf env ms ∧ ChoiceMembersWf env ms ∧ OptionMembersWf env ms)
    (fun kv => JsonWf env kv.2)
    ?_ ?_ ?_ ?_ ?_ ?_ ?_ ?_ ?_ ?_ ?_ b
  · exact jsonWf_scalar env _ (by intro ms h; cases h) (by intro ms h; cases h)
  · intro x
    exact jsonWf_scalar env _ (by intro ms h; cases h) (by intro ms h; cases h)
  · intro x
    exact jsonWf_scalar env _ (by intro ms h; cases h) (by intro ms h; cases h)
  · intro x
    exact jsonWf_scalar env _ (by intro ms h; cases h) (by intro ms h; cases h)
  · intro items ih
    exact jsonWf_arr env items ih
  · intro ms ih
    exact jsonWf_obj env ms ih
  · exact ⟨optionItemsWf_nil env, subQuestionItemsWf_nil env⟩
  · intro head tail ih1 ih2
    exact ⟨optionItemsWf_cons env head tail ih1 ih2.1,
      subQuestionItemsWf_cons env head tail ih1 ih2.2⟩
  · exact ⟨valueMembersWf_nil env, choiceMembersWf_nil env, optionMembersWf_nil env⟩
  · intro head tail ih1 ih2
    obtain ⟨k, v⟩ := head
    exact ⟨valueMembersWf_cons env k v tail ih1 ih2.1,
      choiceMembersWf_cons env k v tail ih1 ih2.2.1,
      optionMembersWf_cons env k v tail ih1 ih2.2.2⟩
  · intro k v ih
    exact ih

theorem UnmarshalJSON_wellFormed (env : PartEnv) (b : Json) (q : Question)
    (h : Question.UnmarshalJSON env b = .ok q) : q.WellFormed = true :=
  (jsonWf_all env b).1 q h


/-! ## Properties of the index and of parsing -/

/-- C2, at the sample survey: the order of the answers does not change whether
`Check` succeeds. -/
theorem Check_ok_iff_witness :
    sampleSurvey.FullJsonSurvey = some "doc" ∧
    ∀ aws2 : Answers String, aws2.Perm sampleAnswers →
      ((sampleSurvey.Check sampleCheckEnv aws2).result = .ok () ↔
        (sampleSurvey.Check sampleCheckEnv sampleAnswers).result = .ok ()) :=
  ⟨rfl, (Check_ok_iff sampleCheckEnv sampleSurvey "doc" rfl sampleAnswers).2⟩

/-- C3, at the sample survey with an answer to an unknown identifier only. -/
theorem Check_missing_required_witness :
    (∃ id ∈ sampleSurvey.RequiredNameIds,
        Answers.has ([("other", ["9"])] : Answers String) id = false) ∧
    (sampleSurvey.Check sampleCheckEnv [("other", ["9"])]).result =
        .error ("missing required answers: " ++
          ", ".intercalate (sampleSurvey.RequiredNameIds.filter
            (fun id => !Answers.has ([("other", ["9"])] : Answers String) id))) ∧
    (sampleSurvey.Check sampleCheckEnv [("other", ["9"])]).calls = [] :=
  ⟨⟨"color", by decide, by decide⟩,
    Check_missing_required sampleCheckEnv sampleSurvey "doc" rfl [("other", ["9"])]
      ⟨"color", by decide, by decide⟩⟩

/-- C1: `nestedJson` parses to a tree in which the nested sub-question `mid`
has the sub-questions `first` and `second`. The index built by
`getNameIdPaths` maps `first` to the path of `second`: both entries end in
`subQuestions.1`, while `first` is reached through `subQuestions.0`. -/
theorem getNameIdPaths_nested_siblings_share_path :
    Question.UnmarshalJSON permissiveEnv nestedJson = .ok nestedQuestion ∧
    nestedSurvey.getNameIdPaths gcGrow =
      some ⟨some [("top", "questions.0"),
        ("mid", "questions.0.value.options.0.subQuestions.0"),
        ("first", "questions.0.value.options.0.subQuestions.0.value.options.0.subQuestions.1"),
        ("second", "questions.0.value.options.0.subQuestions.0.value.options.0.subQuestions.1")],
        some [], none⟩ ∧
    nestedSurvey.nodes.map (fun n => (n.1.NameId, ".".intercalate n.2)) =
      [(some "top", "questions.0"),
       (some "mid", "questions.0.value.options.0.subQuestions.0"),
       (some "first", "questions.0.value.options.0.subQuestions.0.value.options.0.subQuestions.0"),
       (some "second", "questions.0.value.options.0.subQuestions.0.value.options.0.subQuestions.1")] :=
  ⟨rfl, by decide, by decide⟩

/-- C4: in `nestedQuestion` the option of the nested sub-question `mid`
carries the required flag, yet `getNameIdPaths` returns an empty required
list, and `Check` on the stored survey succeeds for an empty answer set. -/
theorem getNameIdPaths_required_marker_dropped :
    questionsAnyRequired nestedSurvey.Questions = true ∧
    (nestedSurvey.getNameIdPaths gcGrow).map (fun r => (r.required, r.err)) =
      some (some [], none) ∧
    (nestedStored.Check sampleCheckEnv ([] : Answers String)).result = .ok () :=
  ⟨by decide, by decide, by decide⟩

/-- C5: on a tree of parsed questions, `getNameIdPaths` returns an error
exactly when two question nodes carry the same identifier; the error is the
duplicate-nameId error for the first identifier, in traversal order, that
repeats an earlier one, and no index and no required list are returned. -/
theorem getNameIdPaths_duplicate_iff (g : GrowPolicy) (s : jsonSurvey)
    (hwf : questionsWellFormed s.Questions = true) :
    ((∃ r, s.getNameIdPaths g = some r ∧ r.err ≠ none) ↔ ¬ s.nameIds.Nodup) ∧
    (∀ r, s.getNameIdPaths g = some r → r.err ≠ none →
      r.paths = none ∧ r.required = none ∧
      ∃ pre id post, s.nameIds = pre ++ id :: post ∧ pre.Nodup ∧ id ∈ pre ∧
        r.err = some ("duplicate nameId: " ++ id)) := by
  obtain ⟨r, hr, hcase⟩ := getNameIdPaths_spec g s hwf
  rcases hcase with ⟨m, rfl, _, hnd⟩ | ⟨pre, id, post, hids, hmem, hpre, rfl⟩
  · refine ⟨⟨?_, fun h => absurd hnd h⟩, ?_⟩
    · rintro ⟨r2, h2, herr⟩
      rw [hr] at h2
      cases h2
      exact absurd rfl herr
    · intro r2 h2 herr
      rw [hr] at h2
      cases h2
      exact absurd rfl herr
  · have hdup : ¬ s.nameIds.Nodup := by
      rw [hids]
      intro h
      have := (List.nodup_append.1 h).2.2
      exact this hmem (by simp)
    refine ⟨⟨fun _ => hdup, fun _ => ⟨_, hr, by simp⟩⟩, ?_⟩
    intro r2 h2 _
    rw [hr] at h2
    cases h2
    exact ⟨rfl, rfl, pre, id, post, hids, hpre, hmem, rfl⟩

/-- C5, at a survey whose nested question repeats a top-level identifier. -/
theorem getNameIdPaths_duplicate_iff_witness :
    questionsWellFormed duplicateSurvey.Questions = true ∧
    ((∃ r, duplicateSurvey.getNameIdPaths gcGrow = some r ∧ r.err ≠ none) ↔
      ¬ duplicateSurvey.nameIds.Nodup) :=
  ⟨by decide, (getNameIdPaths_duplicate_iff gcGrow duplicateSurvey (by decide)).1⟩

/-- C6: on a tree of parsed questions, when `getNameIdPaths` succeeds the keys
of the returned index are exactly the identifiers of the question nodes of the
tree, at every nesting depth. -/
theorem getNameIdPaths_keys_eq_nameIds (g : GrowPolicy) (s : jsonSurvey)
    (hwf : questionsWellFormed s.Questions = true) (r : IndexResult)
    (hr : s.getNameIdPaths g = some r) (hok : r.err = none) :
    ∃ m, r.paths = some m ∧ ∀ id, (GoMap.get m id).isSome = true ↔ id ∈ s.nameIds := by
  obtain ⟨r2, hr2, hcase⟩ := getNameIdPaths_spec g s hwf
  rw [hr] at hr2
  cases hr2
  rcases hcase with ⟨m, rfl, hkeys, _⟩ | ⟨pre, id, post, _, _, _, rfl⟩
  · refine ⟨m, rfl, ?_⟩
    intro id
    rw [get_isSome_iff_mem_keys, hkeys]
  · cases hok

/-- C6, at the survey with nested sub-questions. -/
theorem getNameIdPaths_keys_eq_nameIds_witness :
    questionsWellFormed nestedSurvey.Questions = true ∧
    ∃ m, (IndexResult.mk (some nestedStored.NameIdPaths) (some []) none).paths = some m ∧
      ∀ id, (GoMap.get m id).isSome = true ↔ id ∈ nestedSurvey.nameIds :=
  ⟨by decide,
    getNameIdPaths_keys_eq_nameIds gcGrow nestedSurvey (by decide) _ (by decide) rfl⟩

/-- C7: a question object without `nameId`, and one with a valid `nameId` but
without `type`, make `UnmarshalJSON` panic on the nil pointer, whatever the
validators are; no error is returned. -/
theorem UnmarshalJSON_absent_field_panics :
    (∀ env, Question.UnmarshalJSON env
      (.obj [("type", .str "radio"), ("label", .str "pick"),
        ("value", .obj [("options", .arr [])])]) = .panicked) ∧
    (∀ env, Question.UnmarshalJSON env
      (.obj [("nameId", .str "abc"), ("label", .str "pick"),
        ("value", .obj [("options", .arr [])])]) = .panicked) :=
  ⟨fun _ => rfl, fun _ => rfl⟩

/-- C9, at a document whose value would make the decoding panic. -/
theorem UnmarshalJSON_invalid_nameId_witness :
    decodeBase badIdJson = .ok ⟨none, some "x", some "radio", none, none⟩ ∧
    nameIdRegexp.MatchString "x" = false ∧
    Question.UnmarshalJSON permissiveEnv badIdJson =
      .error ("invalid nameId '" ++ "x" ++ "', must match " ++ nameIdRegexpString) :=
  ⟨rfl, by decide,
    UnmarshalJSON_invalid_nameId permissiveEnv badIdJson _ "x" rfl rfl (by decide)⟩

/-- C10: a successfully parsed question has a non-nil payload that agrees with
its type tag: a `Choice` accepted by `ChoiceUnmarshallValidator` for the four
choice types, a `TextArea` accepted by `TextAreaUnmarshallValidator` for
`text_area`; the same holds at every nesting depth, so `GetNameIdPaths` (with
the `Choice` downcast of `getChoiceNameIdPaths`) does not panic on it. -/
theorem UnmarshalJSON_payload_agrees (env : PartEnv) (b : Json) (q : Question)
    (h : Question.UnmarshalJSON env b = .ok q) :
    q.Value ≠ .nil ∧
    (∃ t, q.QTyp = some t ∧
      ((isChoiceType t = true ∧
          ∃ c, q.Value = .choice c ∧ env.ChoiceUnmarshallValidator c = none) ∨
       (t = QTypeTextArea ∧
          ∃ ta, q.Value = .textArea ta ∧ env.TextAreaUnmarshallValidator ta = none))) ∧
    q.WellFormed = true ∧
    ∀ (g : GrowPolicy) (frm : Slice) (hp : Heap),
      ∃ ps h1, q.GetNameIdPaths g frm hp = some (ps, h1) := by
  have hwf := UnmarshalJSON_wellFormed env b q h
  refine ⟨?_, ?_, hwf, ?_⟩
  · rw [UnmarshalJSON_eq] at h
    obtain ⟨bq, nameId, t, _, _, _, _, hcase⟩ := unmarshalQuestion_ok env _ _ q h
    rcases hcase with ⟨_, c, _, _, rfl⟩ | ⟨_, _, ta, _, rfl⟩ <;>
      simp [Question.Value]
  · rw [UnmarshalJSON_eq] at h
    obtain ⟨bq, nameId, t, _, _, _, hq, hcase⟩ := unmarshalQuestion_ok env _ _ q h
    refine ⟨t, ?_, ?_⟩
    · rcases hcase with ⟨_, c, _, _, rfl⟩ | ⟨_, _, ta, _, rfl⟩ <;>
        simpa [Question.QTyp, Question.base] using hq
    · rcases hcase with ⟨hc, c, _, hv, rfl⟩ | ⟨_, ht, ta, hv, rfl⟩
      · exact Or.inl ⟨hc, c, rfl, hv⟩
      · exact Or.inr ⟨ht, ta, rfl, hv⟩
  · intro g frm hp
    obtain ⟨ps, h1, e, _, _⟩ := GetNameIdPaths_ok g q frm hp [] hwf
    exact ⟨ps, h1, e⟩

/-- C10, at the document with nested sub-questions. -/
theorem UnmarshalJSON_payload_agrees_witness :
    Question.UnmarshalJSON permissiveEnv nestedJson = .ok nestedQuestion ∧
    nestedQuestion.WellFormed = true :=
  ⟨rfl, (UnmarshalJSON_payload_agrees permissiveEnv nestedJson nestedQuestion rfl).2.2.1⟩

/-! ## Validation of the document, parse errors and the receiver -/

/-- C16: `validate` returns an error exactly when the title is nil or empty, or
the version is nil or empty; the title error is the one reported whenever the
title is invalid, the version error when only the version is; it returns nil
exactly when both are present and non-empty, whatever the other fields are. -/
theorem validate_spec (s : jsonSurvey) :
    (s.validate ≠ none ↔
      (s.Title = none ∨ s.Title = some "") ∨ (s.Version = none ∨ s.Version = some "")) ∧
    ((s.Title = none ∨ s.Title = some "") ↔ s.validate = some "survey title is required") ∧
    ((¬ (s.Title = none ∨ s.Title = some "") ∧ (s.Version = none ∨ s.Version = some "")) ↔
      s.validate = some "survey version is required") ∧
    ((∃ t v, s.Title = some t ∧ t ≠ "" ∧ s.Version = some v ∧ v ≠ "") ↔ s.validate = none) := by
  obtain ⟨title, version, d, qs⟩ := s
  cases title with
  | none => simp [jsonSurvey.validate]
  | some t =>
    by_cases ht : t = ""
    · simp [jsonSurvey.validate, ht]
    · cases version with
      | none => simp [jsonSurvey.validate, ht]
      | some v =>
        by_cases hv : v = ""
        · simp [jsonSurvey.validate, ht, hv]
        · simp [jsonSurvey.validate, ht, hv]

/-- C12: for a question document whose base fields decode, with a matching
identifier and a type tag that is none of the five known ones,
`UnmarshalJSON` returns the invalid-type error and no question. -/
theorem UnmarshalJSON_unknown_type (env : PartEnv) (b : Json) (bq : baseQuestion)
    (nameId : String) (t : QuestionType) (hdec : decodeBase b = .ok bq)
    (hid : bq.NameId = some nameId) (hmatch : nameIdRegexp.MatchString nameId = true)
    (ht : bq.QTyp = some t)
    (hunknown : t ≠ QTypeSingleSelect ∧ t ≠ QTypeMultipleSelect ∧ t ≠ QTypeRadio ∧
      t ≠ QTypeCheckbox ∧ t ≠ QTypeTextArea) :
    Question.UnmarshalJSON env b = .error ("invalid question type: " ++ t) := by
  rw [UnmarshalJSON_eq]
  obtain ⟨h1, h2, h3, h4, h5⟩ := hunknown
  simp [unmarshalQuestion, hdec, hid, hmatch, ht, isChoiceType, h1, h2, h3, h4, h5]

/-- Every statement but the store leaves the receiver as it is. -/
theorem exec_keeps_receiver (env : PartEnv) (b : Json) (s : UnmarshalStmt)
    (fr : UnmarshalFrame) (hs : s ≠ .storeReceiver) : (s.exec env b fr).1.q = fr.q := by
  cases s with
  | storeReceiver => exact absurd rfl hs
  | unmarshalBase => simp only [UnmarshalStmt.exec]; split <;> rfl
  | loadNameId => simp only [UnmarshalStmt.exec]; split <;> rfl
  | matchNameId => simp only [UnmarshalStmt.exec]; split <;> rfl
  | switchType =>
    simp only [UnmarshalStmt.exec]
    split
    · rfl
    · split
      · simp only [UnmarshalFrame.assignCall]; split <;> rfl
      · split
        · simp only [UnmarshalFrame.assignCall]; split <;> rfl
        · rfl
  | checkErr =>
    simp only [UnmarshalStmt.exec]
    split
    · rfl
    · split <;> rfl
  | returnNil => rfl

/-- The run of the body and the function `Question.UnmarshalJSON` agree: the
same result is returned, and the receiver holds the parsed question after a
success and the question it held before otherwise. -/
theorem UnmarshalJSONOn_eq (env : PartEnv) (q : Question) (b : Json) :
    q.UnmarshalJSONOn env b =
      match Question.UnmarshalJSON env b with
      | .ok nq => (nq, .ok ())
      | .error e => (q, .error e)
      | .panicked => (q, .panicked) := by
  rw [UnmarshalJSON_eq]
  unfold Question.UnmarshalJSONOn Question.runUnmarshal unmarshalBody unmarshalQuestion
  simp only [runStmts, UnmarshalStmt.exec, UnmarshalFrame.entry]
  generalize getQuestionByValueTyp QValue.choice (unmarshalTyped b (choiceValueOf env b))
    env.ChoiceUnmarshallValidator = ch
  cases b <;>
  · generalize getQuestionByValueTyp QValue.textArea _ env.TextAreaUnmarshallValidator = ta
    cases decodeBase _ with
    | error e => rfl
    | ok bq =>
      dsimp only
      cases hn : bq.NameId with
      | none => rfl
      | some nameId =>
        dsimp only
        cases hm : nameIdRegexp.MatchString nameId with
        | false => simp
        | true =>
          cases hq : bq.QTyp with
          | none => simp [hq]
          | some t =>
            cases hc : isChoiceType t with
            | true =>
              cases ch <;> simp [UnmarshalFrame.assignCall, wrapQuestionError, hn, hq, hc]
            | false =>
              by_cases ht : (t == QTypeTextArea) = true
              · cases ta <;>
                  simp [UnmarshalFrame.assignCall, wrapQuestionError, hn, hq, hc, ht]
              · simp [hq, hc, ht]

/-- A list of statements without the store leaves the receiver as it is. -/
theorem runStmts_keeps_receiver (env : PartEnv) (b : Json) :
    ∀ (prog : List UnmarshalStmt) (fr : UnmarshalFrame),
      UnmarshalStmt.storeReceiver ∉ prog → (runStmts env b prog fr).1.q = fr.q := by
  intro prog
  induction prog with
  | nil => intro fr _; rfl
  | cons s rest ih =>
    intro fr h
    have hs : s ≠ .storeReceiver := fun e => h (by simp [e])
    have hrest : UnmarshalStmt.storeReceiver ∉ rest := fun e => h (by simp [e])
    have h1 := exec_keeps_receiver env b s fr hs
    rw [runStmts]
    split
    · rename_i fr1 heq
      rw [ih fr1 hrest, ← h1, heq]
    · exact h1

/-- Moving the store in front of the check of the identifier breaks the
property: the call returns the error of the check, and the receiver holds
the question with the rejected identifier. -/
theorem storeFirstBody_overwrites :
    (Question.runUnmarshal permissiveEnv storeFirstBody nestedQuestion
        (textQuestionJson "x")).2 =
      .error ("invalid nameId 'x', must match " ++ nameIdRegexpString) ∧
    (Question.runUnmarshal permissiveEnv storeFirstBody nestedQuestion
        (textQuestionJson "x")).1.NameId = some "x" ∧
    nestedQuestion.NameId = some "top" := by
  refine ⟨?_, ?_, ?_⟩ <;> rfl

/-- C18: when `UnmarshalJSON` returns an error (of the base fields, the
identifier, the type tag, a missing value or a validator) the receiver holds
the question it held before the call; the receiver changes only when the call
succeeds, and then to the parsed question. The store `*q = *nq` is the one
statement of the body that writes the receiver. -/
theorem UnmarshalJSONOn_frame (env : PartEnv) (q : Question) (b : Json) :
    (∀ e, (q.UnmarshalJSONOn env b).2 = .error e → (q.UnmarshalJSONOn env b).1 = q) ∧
    ((q.UnmarshalJSONOn env b).1 ≠ q →
      (q.UnmarshalJSONOn env b).2 = .ok () ∧
        Question.UnmarshalJSON env b = .ok (q.UnmarshalJSONOn env b).1) ∧
    (∀ e, Question.UnmarshalJSON env b = .error e →
      q.UnmarshalJSONOn env b = (q, .error e)) ∧
    (∀ nq, Question.UnmarshalJSON env b = .ok nq →
      q.UnmarshalJSONOn env b = (nq, .ok ())) ∧
    (∀ (s : UnmarshalStmt) (fr : UnmarshalFrame), s ≠ .storeReceiver →
      (s.exec env b fr).1.q = fr.q) := by
  refine ⟨?_, ?_, ?_, ?_, fun s fr hs => exec_keeps_receiver env b s fr hs⟩
  · rw [UnmarshalJSONOn_eq]
    cases Question.UnmarshalJSON env b <;> simp
  · rw [UnmarshalJSONOn_eq]
    cases Question.UnmarshalJSON env b <;> simp
  · intro e h
    rw [UnmarshalJSONOn_eq, h]
  · intro nq h
    rw [UnmarshalJSONOn_eq, h]

theorem valueChoiceMembers_null (env : PartEnv) : ∀ (ms : List (String × Json)) (bad : Bool),
    (∀ kv ∈ ms, fieldMatches kv.1 "value" = true → kv.2 = .null) →
    valueChoiceMembers env ms none bad = .ok (none, bad) := by
  intro ms
  induction ms with
  | nil => intro bad _; rw [valueChoiceMembers.eq_def]
  | cons kv rest ih =>
    intro bad h
    obtain ⟨k, v⟩ := kv
    rw [valueChoiceMembers.eq_def]
    simp only
    have hst : storeValueChoice k v none (choiceOfValue env v ((none : Option Choice).getD (.mk [])))
        = .ok (none, false) := by
      unfold storeValueChoice
      by_cases hk : fieldMatches k "value" = true
      · have hv : v = .null := h (k, v) (by simp) hk
        subst hv
        simp [hk]
      · simp [hk]
    rw [hst]
    simp only [Bool.or_false]
    exact ih bad (fun kv hkv => h kv (by simp [hkv]))

theorem valueTextAreaMembers_null (env : PartEnv) : ∀ (ms : List (String × Json)) (bad : Bool),
    (∀ kv ∈ ms, fieldMatches kv.1 "value" = true → kv.2 = .null) →
    valueTextAreaMembers env ms none bad = (none, bad) := by
  intro ms
  induction ms with
  | nil => intro bad _; simp [valueTextAreaMembers]
  | cons kv rest ih =>
    intro bad h
    obtain ⟨k, v⟩ := kv
    have hrest := ih bad (fun kv hkv => h kv (by simp [hkv]))
    by_cases hk : fieldMatches k "value" = true
    · have hv : v = .null := h (k, v) (by simp) hk
      subst hv
      simp [valueTextAreaMembers, hk, hrest]
    · simp [valueTextAreaMembers, hk, hrest]

/-- C11: for a question object whose base fields decode, with a matching
identifier and one of the five type tags, whose `value` members are absent or
all `null`, `UnmarshalJSON` returns the value-is-not-defined error wrapped
with the identifier, for the choice types and for `text_area` alike and
whatever the validators are. -/
theorem UnmarshalJSON_value_not_defined (env : PartEnv) (ms : List (String × Json))
    (bq : baseQuestion) (nameId : String) (t : QuestionType)
    (hdec : decodeBase (.obj ms) = .ok bq) (hid : bq.NameId = some nameId)
    (hmatch : nameIdRegexp.MatchString nameId = true) (ht : bq.QTyp = some t)
    (hknown : isChoiceType t = true ∨ t = QTypeTextArea)
    (hval : ∀ kv ∈ ms, fieldMatches kv.1 "value" = true → kv.2 = .null) :
    Question.UnmarshalJSON env (.obj ms) =
      .error ("\n - error unmarshalling question '" ++ nameId ++ "'. " ++
        "value is not defined") := by
  rw [UnmarshalJSON_eq]
  have h1 : choiceValueOf env (.obj ms) = .ok (none, false) := by
    simp only [choiceValueOf]
    exact valueChoiceMembers_null env ms false hval
  have h2 := valueTextAreaMembers_null env ms false hval
  by_cases hc : isChoiceType t = true
  · simp [unmarshalQuestion, hdec, hid, hmatch, ht, hc, h1, unmarshalTyped,
      getQuestionByValueTyp, wrapQuestionError]
  · have ht2 : t = QTypeTextArea := by
      rcases hknown with h | h
      · exact absurd h hc
      · exact h
    subst ht2
    simp [unmarshalQuestion, hdec, hid, hmatch, ht, hc, h2, unmarshalTyped,
      getQuestionByValueTyp, wrapQuestionError]

theorem answersLoop_rejected {R V : Type} (env : CheckEnv R V) (s : Survey) (gres : R)
    (e : String × List V) (path msg : String) (post : List (String × List V))
    (hrej : answerRejected env s gres e path msg) :
    ∀ (pre : List (String × List V)) (calls : List (R × List V × QuestionType)),
      (∀ x ∈ pre, answerPasses env s gres x) →
      (answersLoop env s gres (pre ++ e :: post) calls).result =
        .error ("invalid answer for nameId '" ++ e.1 ++ "', path '" ++ path ++
          "', error: " ++ msg) := by
  intro pre
  induction pre with
  | nil =>
    intro calls _
    obtain ⟨qt, checker, h1, h2, h3, h4⟩ := hrej
    obtain ⟨nameId, values⟩ := e
    simp only [List.nil_append, answersLoop]
    simp only at h1 h4
    rw [h1]
    dsimp only
    rw [h2]
    dsimp only
    rw [h3]
    dsimp only
    rw [h4]
  | cons x rest ih =>
    intro calls hpre
    obtain ⟨p, qt, checker, h1, h2, h3, h4⟩ := hpre x (by simp)
    obtain ⟨nameId, values⟩ := x
    simp only [List.cons_append, answersLoop]
    simp only at h1 h4
    rw [h1]
    dsimp only
    rw [h2]
    dsimp only
    rw [h3]
    dsimp only
    rw [h4]
    dsimp only
    exact ih _ (fun y hy => hpre y (by simp [hy]))

theorem Check_no_missing {R V : Type} (env : CheckEnv R V) (s : Survey) (text : String)
    (hs : s.FullJsonSurvey = some text) (aws : Answers V)
    (hreq : ∀ id ∈ s.RequiredNameIds, Answers.has aws id = true) :
    s.Check env aws = answersLoop env s (env.Parse text) aws [] := by
  have : s.RequiredNameIds.filter (fun id => !Answers.has aws id) = [] := by
    rw [List.filter_eq_nil_iff]
    intro x hx
    simp [hreq x hx]
  simp [Survey.Check, hs, missingRequired_eq, this]

/-- C17: when every required identifier is answered, every other answer passes
and one answer, at any position of the visit, is rejected by its checker with
`msg`, `Check` fails with the error that names that answer's identifier, the
path stored for it in the index, and `msg`. -/
theorem Check_one_rejected {R V : Type} (env : CheckEnv R V) (s : Survey) (text : String)
    (hs : s.FullJsonSurvey = some text) (pre post : List (String × List V))
    (e : String × List V) (path msg : String)
    (hreq : ∀ id ∈ s.RequiredNameIds, Answers.has (pre ++ e :: post) id = true)
    (hothers : ∀ x ∈ pre ++ post, answerPasses env s (env.Parse text) x)
    (hrej : answerRejected env s (env.Parse text) e path msg) :
    s.NameIdPaths.get e.1 = some path ∧
    (s.Check env (pre ++ e :: post)).result =
      .error ("invalid answer for nameId '" ++ e.1 ++ "', path '" ++ path ++
        "', error: " ++ msg) := by
  refine ⟨?_, ?_⟩
  · obtain ⟨_, _, h1, _⟩ := hrej
    exact h1
  · rw [Check_no_missing env s text hs _ hreq]
    exact answersLoop_rejected env s _ e path msg post hrej pre []
      (fun x hx => hothers x (by simp [hx]))

theorem answersLoop_unknown {R V : Type} (env : CheckEnv R V) (s : Survey) (gres : R) :
    ∀ (l : List (String × List V)) (calls : List (R × List V × QuestionType)),
      (∃ e ∈ l, s.NameIdPaths.get e.1 = none) →
      (∀ e ∈ l, (s.NameIdPaths.get e.1).isSome = true → answerPasses env s gres e) →
      ∃ e ∈ l, s.NameIdPaths.get e.1 = none ∧
        (answersLoop env s gres l calls).result = .error ("nameId not found: " ++ e.1) := by
  intro l
  induction l with
  | nil => intro calls h; obtain ⟨e, he, _⟩ := h; cases he
  | cons x rest ih =>
    intro calls hunk hpass
    obtain ⟨nameId, values⟩ := x
    cases hx : s.NameIdPaths.get nameId with
    | none =>
      refine ⟨(nameId, values), by simp, hx, ?_⟩
      simp only [answersLoop]
      rw [hx]
    | some path =>
      obtain ⟨p, qt, checker, h1, h2, h3, h4⟩ := hpass (nameId, values) (by simp) (by simp [hx])
      have hunk2 : ∃ e ∈ rest, s.NameIdPaths.get e.1 = none := by
        obtain ⟨e, he, hn⟩ := hunk
        rcases List.mem_cons.1 he with rfl | he
        · simp only at hn; rw [hx] at hn; cases hn
        · exact ⟨e, he, hn⟩
      obtain ⟨e, he, hn, hr⟩ := ih (calls ++ [(env.Get gres p, values, qt)]) hunk2
        (fun y hy => hpass y (by simp [hy]))
      refine ⟨e, by simp [he], hn, ?_⟩
      simp only [answersLoop]
      simp only at h1 h4
      rw [h1]
      dsimp only
      rw [h2]
      dsimp only
      rw [h3]
      dsimp only
      rw [h4]
      dsimp only
      exact hr

/-- C15, amended: when every required identifier is answered and some answer
key is not in the index, `Check` fails; if every answer whose key is in the
index passes, the failure is the nameId-not-found error naming such a key. -/
theorem Check_unknown_identifier {R V : Type} (env : CheckEnv R V) (s : Survey) (text : String)
    (hs : s.FullJsonSurvey = some text) (aws : Answers V)
    (hreq : ∀ id ∈ s.RequiredNameIds, Answers.has aws id = true)
    (hunk : ∃ e ∈ aws, s.NameIdPaths.get e.1 = none) :
    (s.Check env aws).result ≠ .ok () ∧
    ((∀ e ∈ aws, (s.NameIdPaths.get e.1).isSome = true →
        answerPasses env s (env.Parse text) e) →
      ∃ e ∈ aws, s.NameIdPaths.get e.1 = none ∧
        (s.Check env aws).result = .error ("nameId not found: " ++ e.1)) := by
  rw [Check_no_missing env s text hs _ hreq]
  refine ⟨?_, ?_⟩
  · intro hok
    have := (answersLoop_ok_iff env s (env.Parse text) aws []).1 hok
    obtain ⟨e, he, hn⟩ := hunk
    obtain ⟨p, _, _, h1, _⟩ := this e he
    rw [hn] at h1
    cases h1
  · intro hpass
    exact answersLoop_unknown env s _ aws [] hunk hpass

/-- C15 fails as stated: with an unknown key and an indexed answer that its
checker rejects, visited first, `Check` returns the invalid-answer error and
not the nameId-not-found error. -/
theorem Check_unknown_identifier_counterexample :
    (∀ id ∈ optionalSurvey.RequiredNameIds,
      Answers.has ([("color", ["9"]), ("other", ["1"])] : Answers String) id = true) ∧
    (∃ e ∈ ([("color", ["9"]), ("other", ["1"])] : Answers String),
      optionalSurvey.NameIdPaths.get e.1 = none) ∧
    (optionalSurvey.Check sampleCheckEnv [("color", ["9"]), ("other", ["1"])]).result =
      .error "invalid answer for nameId 'color', path 'questions.0', error: unknown option" ∧
    ∀ k : String,
      (optionalSurvey.Check sampleCheckEnv [("color", ["9"]), ("other", ["1"])]).result ≠
        .error ("nameId not found: " ++ k) := by
  have hres : (optionalSurvey.Check sampleCheckEnv [("color", ["9"]), ("other", ["1"])]).result =
      .error "invalid answer for nameId 'color', path 'questions.0', error: unknown option" := by
    decide
  refine ⟨by decide, ⟨("other", ["1"]), by decide, by decide⟩, hres, ?_⟩
  intro k h
  rw [hres] at h
  have h2 := congrArg String.data (Outcome.error.inj h)
  simp [String.data_append] at h2

/-- C19: for `nestedSurvey` the index returned by `getNameIdPaths` has as many
entries as the tree has nodes, but it maps the two identifiers `first` and
`second` to the same path. -/
theorem getNameIdPaths_not_injective :
    nestedSurvey.getNameIdPaths gcGrow = some ⟨some nestedStored.NameIdPaths, some [], none⟩ ∧
    GoMap.get nestedStored.NameIdPaths "first" = GoMap.get nestedStored.NameIdPaths "second" ∧
    (GoMap.get nestedStored.NameIdPaths "first").isSome = true ∧
    nestedStored.NameIdPaths.length = nestedSurvey.nodes.length :=
  ⟨by decide, by decide, by decide, by decide⟩


/-! ## The traversal and the heap -/

theorem heapKeeps_refl (s : Slice) (h : Heap) (hv : s.ValidIn h) : HeapKeeps s h h :=
  ⟨rfl, hv⟩

theorem heapKeeps_trans {s : Slice} {h h1 h2 : Heap} (a : HeapKeeps s h h1)
    (b : HeapKeeps s h1 h2) : HeapKeeps s h h2 :=
  ⟨b.1.trans a.1, b.2⟩

theorem getD_set_self (h : Heap) (i : Nat) (a : List String) (hi : i < h.length) :
    (h.set i a).getD i [] = a := by
  simp [List.getD_eq_getElem?_getD, List.getElem?_set, hi]

theorem getD_set_ne (h : Heap) (i j : Nat) (a : List String) (hij : i ≠ j) :
    (h.set i a).getD j [] = h.getD j [] := by
  simp [List.getD_eq_getElem?_getD, List.getElem?_set, hij]

theorem getD_append_left (h : Heap) (a : List String) (j : Nat) (hj : j < h.length) :
    (h ++ [a]).getD j [] = h.getD j [] := by
  simp [List.getD_eq_getElem?_getD, List.getElem?_append_left hj]

theorem writeAt_take (a xs : List String) (i n : Nat) (hn : n ≤ i) (ha : n ≤ a.length) :
    (writeAt a i xs).take n = a.take n ∧ n ≤ (writeAt a i xs).length := by
  unfold writeAt
  have h1 : n ≤ (a.take i).length := by simp; omega
  constructor
  · rw [List.append_assoc, List.take_append_of_le_length h1, List.take_take]
    congr 1
    omega
  · simp; omega

theorem goAppend_keeps (g : GrowPolicy) (h : Heap) (t s : Slice) (xs : List String)
    (hv : s.ValidIn h) (habove : t.ptr = s.ptr → s.len ≤ t.len) :
    HeapKeeps s h (goAppend g h t xs).2 ∧
      ((goAppend g h t xs).1.ptr = s.ptr → s.len ≤ (goAppend g h t xs).1.len) := by
  obtain ⟨hptr, hlen⟩ := hv
  unfold goAppend
  by_cases hcap : t.len + xs.length ≤ t.cap
  · simp only [hcap, if_true]
    by_cases hp : t.ptr = s.ptr
    · have hts := habove hp
      have hw := writeAt_take (h.getD t.ptr []) xs t.len s.len hts (by rw [hp]; exact hlen)
      refine ⟨⟨?_, ?_, ?_⟩, ?_⟩
      · simp only [Heap.read]
        rw [← hp, getD_set_self h t.ptr _ (by rw [hp]; exact hptr)]
        exact hw.1
      · simpa using hptr
      · rw [← hp, getD_set_self h t.ptr _ (by rw [hp]; exact hptr)]
        exact hw.2
      · intro _
        show s.len ≤ t.len + xs.length
        omega
    · refine ⟨⟨?_, ?_, ?_⟩, ?_⟩
      · simp only [Heap.read]
        rw [getD_set_ne h _ _ _ hp]
      · simpa using hptr
      · rw [getD_set_ne h _ _ _ hp]; exact hlen
      · intro h2; exact absurd h2 hp
  · simp only [hcap, if_false]
    refine ⟨⟨?_, ?_, ?_⟩, ?_⟩
    · simp only [Heap.read]
      rw [getD_append_left h _ _ hptr]
    · simp; omega
    · rw [getD_append_left h _ _ hptr]; exact hlen
    · intro h2
      have h3 : h.length = s.ptr := h2
      omega

theorem frame_question (g : GrowPolicy) (base : baseQuestion) (v : QValue)
    (ih : FrameOf (getChoiceNameIdPaths g v)) :
    FrameOf (Question.GetNameIdPaths g (.mk base v)) := by
  intro t h s ps h1 hv habove hrun
  rw [Question.GetNameIdPaths.eq_def] at hrun
  simp only at hrun
  cases hn : base.NameId with
  | none => simp [hn] at hrun
  | some nameId =>
    simp only [hn] at hrun
    cases hq : base.QTyp with
    | none => simp [hq] at hrun
    | some ty =>
      simp only [hq] at hrun
      by_cases hc : isChoiceType ty = true
      · rw [if_pos hc] at hrun
        cases hr : getChoiceNameIdPaths g v t h with
        | none => simp [hr] at hrun
        | some r =>
          obtain ⟨ps2, h2⟩ := r
          simp [hr] at hrun
          have := ih t h s ps2 h2 hv habove hr
          rw [← hrun.2]; exact this
      · rw [if_neg hc] at hrun
        simp at hrun
        rw [← hrun.2]; exact heapKeeps_refl s h hv

theorem frame_value_choice (g : GrowPolicy) (opts : List ChoiceOption)
    (ih : ∀ oi, FrameOf (optionsLoop g opts oi)) :
    FrameOf (getChoiceNameIdPaths g (.choice (.mk opts))) := by
  intro t h s ps h1 hv habove hrun
  rw [getChoiceNameIdPaths.eq_def] at hrun
  simp only at hrun
  obtain ⟨k1, k2⟩ := goAppend_keeps g h t s ["value", "options"] hv habove
  exact heapKeeps_trans k1 (ih 0 _ _ s ps h1 k1.2 k2 hrun)

theorem frame_value_other (g : GrowPolicy) (v : QValue) (hv : ∀ c, v ≠ .choice c) :
    FrameOf (getChoiceNameIdPaths g v) := by
  intro t h s ps h1 _ _ hrun
  rw [getChoiceNameIdPaths.eq_def] at hrun
  cases v with
  | choice c => exact absurd rfl (hv c)
  | nil => simp at hrun
  | textArea _ => simp at hrun

theorem frame_options_nil (g : GrowPolicy) (oi : Nat) : FrameOf (optionsLoop g [] oi) := by
  intro t h s ps h1 hv _ hrun
  rw [optionsLoop.eq_def] at hrun
  simp at hrun
  rw [← hrun.2]; exact heapKeeps_refl s h hv

theorem frame_options_cons (g : GrowPolicy) (o : ChoiceOption) (rest : List ChoiceOption)
    (ih1 : ∀ oi si, FrameOf (subQuestionsLoop g o.SubQuestions oi si))
    (ih2 : ∀ oi, FrameOf (optionsLoop g rest oi)) (oi : Nat) :
    FrameOf (optionsLoop g (o :: rest) oi) := by
  intro t h s ps h1 hv habove hrun
  obtain ⟨id, label, order, required, subs⟩ := o
  rw [optionsLoop.eq_def] at hrun
  simp only at hrun
  cases hr : subQuestionsLoop g subs oi 0 t h with
  | none => simp [hr] at hrun
  | some r =>
    obtain ⟨ps1, h2⟩ := r
    simp only [hr] at hrun
    cases hr2 : optionsLoop g rest (oi + 1) t h2 with
    | none => simp [hr2] at hrun
    | some r2 =>
      obtain ⟨ps2, h3⟩ := r2
      simp [hr2] at hrun
      have k1 := ih1 oi 0 t h s ps1 h2 hv habove hr
      have k2 := ih2 (oi + 1) t h2 s ps2 h3 k1.2 habove hr2
      rw [← hrun.2]; exact heapKeeps_trans k1 k2

theorem frame_questions_nil (g : GrowPolicy) (oi si : Nat) :
    FrameOf (subQuestionsLoop g [] oi si) := by
  intro t h s ps h1 hv _ hrun
  rw [subQuestionsLoop.eq_def] at hrun
  simp at hrun
  rw [← hrun.2]; exact heapKeeps_refl s h hv

theorem frame_questions_cons (g : GrowPolicy) (q : Question) (rest : List Question)
    (ih1 : FrameOf (Question.GetNameIdPaths g q))
    (ih2 : ∀ oi si, FrameOf (subQuestionsLoop g rest oi si)) (oi si : Nat) :
    FrameOf (subQuestionsLoop g (q :: rest) oi si) := by
  intro t h s ps h1 hv habove hrun
  rw [subQuestionsLoop.eq_def] at hrun
  simp only at hrun
  obtain ⟨k1, k2⟩ := goAppend_keeps g h t s [toString oi, "subQuestions", toString si] hv habove
  cases hr : Question.GetNameIdPaths g q
      (goAppend g h t [toString oi, "subQuestions", toString si]).1
      (goAppend g h t [toString oi, "subQuestions", toString si]).2 with
  | none => simp [hr] at hrun
  | some r =>
    obtain ⟨ps1, h2⟩ := r
    simp only [hr] at hrun
    cases hr2 : subQuestionsLoop g rest oi (si + 1) t h2 with
    | none => simp [hr2] at hrun
    | some r2 =>
      obtain ⟨ps2, h3⟩ := r2
      simp [hr2] at hrun
      have k3 := ih1 _ _ s ps1 h2 k1.2 k2 hr
      have k4 := ih2 oi (si + 1) t h2 s ps2 h3 k3.2 habove hr2
      rw [← hrun.2]; exact heapKeeps_trans k1 (heapKeeps_trans k3 k4)

theorem frame_all (g : GrowPolicy) (q : Question) : FrameOf (Question.GetNameIdPaths g q) := by
  refine @Question.rec
    (fun q => FrameOf (Question.GetNameIdPaths g q))
    (fun v => FrameOf (getChoiceNameIdPaths g v))
    (fun c => ∀ oi, FrameOf (optionsLoop g c.Options oi))
    (fun o => ∀ oi si, FrameOf (subQuestionsLoop g o.SubQuestions oi si))
    (fun os => ∀ oi, FrameOf (optionsLoop g os oi))
    (fun qs => ∀ oi si, FrameOf (subQuestionsLoop g qs oi si))
    ?_ ?_ ?_ ?_ ?_ ?_ ?_ ?_ ?_ ?_ q
  · intro base v ih
    exact frame_question g base v ih
  · exact frame_value_other g _ (by intro c h; cases h)
  · intro c ih
    cases c with
    | mk opts => exact frame_value_choice g opts ih
  · intro t
    exact frame_value_other g _ (by intro c h; cases h)
  · intro opts ih
    exact ih
  · intro id label order required subs ih
    exact ih
  · intro oi
    exact frame_options_nil g oi
  · intro o rest ih1 ih2 oi
    exact frame_options_cons g o rest ih1 ih2 oi
  · intro oi si
    exact frame_questions_nil g oi si
  · intro q rest ih1 ih2 oi si
    exact frame_questions_cons g q rest ih1 ih2 oi si

theorem allNamed_nil : AllNamed [] := by
  simp [AllNamed, nodeIds]

theorem allNamed_append {a b : List (Question × List String)} (ha : AllNamed a)
    (hb : AllNamed b) : AllNamed (a ++ b) := by
  unfold AllNamed at *
  simp [nodeIds_append, ha, hb]

theorem allNamed_cons (q : Question) (p : List String) (l : List (Question × List String))
    (nameId : String) (hq : q.NameId = some nameId) (hl : AllNamed l) :
    AllNamed ((q, p) :: l) := by
  unfold AllNamed at *
  simp [nodeIds, hq] at hl ⊢
  exact hl

theorem named_all (q : Question) :
    q.WellFormed = true → ∀ p, AllNamed (q.nodesAt p) := by
  refine @Question.rec
    (fun q => q.WellFormed = true → ∀ p, AllNamed (q.nodesAt p))
    (fun v => (QValue.choiceWellFormed v = true ∨ QValue.isTextArea v = true) →
      ∀ p, AllNamed (QValue.nodesAt v p))
    (fun c => optionsWellFormed c.Options = true → ∀ oi p, AllNamed (optionsNodesAt c.Options oi p))
    (fun o => questionsWellFormed o.SubQuestions = true →
      ∀ oi si p, AllNamed (subQuestionsNodesAt o.SubQuestions oi si p))
    (fun os => optionsWellFormed os = true → ∀ oi p, AllNamed (optionsNodesAt os oi p))
    (fun qs => questionsWellFormed qs = true →
      ∀ oi si p, AllNamed (subQuestionsNodesAt qs oi si p))
    ?_ ?_ ?_ ?_ ?_ ?_ ?_ ?_ ?_ ?_ q
  · intro base v ih hwf p
    rw [Question.WellFormed.eq_def] at hwf
    simp only [Bool.and_eq_true] at hwf
    obtain ⟨hid, ht⟩ := hwf
    cases hn : base.NameId with
    | none => simp [hn] at hid
    | some nameId =>
      rw [Question.nodesAt.eq_def]
      simp only
      refine allNamed_cons _ _ _ nameId (by simp [Question.NameId, Question.base, hn]) ?_
      apply ih
      cases hq : base.QTyp with
      | none => simp [hq] at ht
      | some ty =>
        simp only [hq] at ht
        by_cases hc : isChoiceType ty = true
        · rw [if_pos hc] at ht; exact Or.inl ht
        · rw [if_neg hc] at ht
          simp only [Bool.and_eq_true] at ht
          exact Or.inr ht.2
  · intro _ p
    rw [QValue.nodesAt.eq_def]
    exact allNamed_nil
  · intro c ih h p
    cases c with
    | mk opts =>
      rw [QValue.nodesAt.eq_def]
      simp only
      rcases h with h | h
      · rw [QValue.choiceWellFormed.eq_def] at h
        exact ih h 0 p
      · rw [QValue.isTextArea.eq_def] at h
        simp at h
  · intro t _ p
    rw [QValue.nodesAt.eq_def]
    exact allNamed_nil
  · intro opts ih
    exact ih
  · intro id label order required subs ih
    exact ih
  · intro _ oi p
    rw [optionsNodesAt.eq_def]
    exact allNamed_nil
  · intro o rest ih1 ih2 hwf oi p
    obtain ⟨id, label, order, required, subs⟩ := o
    rw [optionsWellFormed.eq_def] at hwf
    simp only [Bool.and_eq_true] at hwf
    rw [optionsNodesAt.eq_def]
    simp only
    exact allNamed_append (ih1 hwf.1 oi 0 p) (ih2 hwf.2 (oi + 1) p)
  · intro _ oi si p
    rw [subQuestionsNodesAt.eq_def]
    exact allNamed_nil
  · intro q rest ih1 ih2 hwf oi si p
    rw [questionsWellFormed.eq_def] at hwf
    simp only [Bool.and_eq_true] at hwf
    rw [subQuestionsNodesAt.eq_def]
    simp only
    exact allNamed_append (ih1 hwf.1 _) (ih2 hwf.2 oi (si + 1) p)

/-- C14: on a parsed question the identifiers returned by `GetNameIdPaths` are
those of the nodes of its tree in pre-order (the question, then for each
option in order the results of its sub-questions in order), and the length of
the result is the number of nodes. -/
theorem GetNameIdPaths_preorder (g : GrowPolicy) (q : Question) (frm : Slice) (h : Heap)
    (hwf : q.WellFormed = true) :
    ∃ ps h1, q.GetNameIdPaths g frm h = some (ps, h1) ∧
      ps.map (fun ip => some ip.NameId) = (q.nodesAt []).map (fun n => n.1.NameId) ∧
      ps.length = (q.nodesAt []).length := by
  obtain ⟨ps, h1, e1, e2, _⟩ := GetNameIdPaths_ok g q frm h [] hwf
  have hn : AllNamed (q.nodesAt []) := named_all q hwf []
  have hmap : ps.map (fun ip => some ip.NameId) = (q.nodesAt []).map (fun n => n.1.NameId) := by
    rw [hn, ← e2]
    simp
  refine ⟨ps, h1, e1, hmap, ?_⟩
  have := congrArg List.length hmap
  simpa using this

/-- C13: on a parsed question and a base path held in the heap, the result of
`GetNameIdPaths` starts with the question's identifier and the base path,
which still shows the same segments when the call returns; for `text_area`
the result is that single element and the heap is untouched. -/
theorem GetNameIdPaths_head (g : GrowPolicy) (q : Question) (frm : Slice) (h : Heap)
    (hwf : q.WellFormed = true) (hv : frm.ValidIn h) :
    ∃ nameId rest h1, q.NameId = some nameId ∧
      q.GetNameIdPaths g frm h = some (⟨nameId, frm, false⟩ :: rest, h1) ∧
      h1.read frm = h.read frm ∧
      (q.QTyp = some QTypeTextArea → rest = [] ∧ h1 = h) := by
  obtain ⟨ps, h1, e1, _, _⟩ := GetNameIdPaths_ok g q frm h [] hwf
  have hk := frame_all g q frm h frm ps h1 hv (fun _ => Nat.le_refl _) e1
  obtain ⟨base, v⟩ := q
  rw [Question.GetNameIdPaths.eq_def] at e1
  simp only at e1
  cases hn : base.NameId with
  | none => simp [hn] at e1
  | some nameId =>
    simp only [hn] at e1
    cases hq : base.QTyp with
    | none => simp [hq] at e1
    | some ty =>
      simp only [hq] at e1
      by_cases hc : isChoiceType ty = true
      · rw [if_pos hc] at e1
        cases hr : getChoiceNameIdPaths g v frm h with
        | none => simp [hr] at e1
        | some r =>
          obtain ⟨ps2, h2⟩ := r
          simp [hr] at e1
          refine ⟨nameId, ps2, h1, by simp [Question.NameId, Question.base, hn], ?_, hk.1, ?_⟩
          · rw [Question.GetNameIdPaths.eq_def]
            simp [hn, hq, hc, hr, e1.1, e1.2]
          · intro hta
            simp [Question.QTyp, Question.base, hq] at hta
            subst hta
            exact absurd hc (by decide)
      · rw [if_neg hc] at e1
        simp at e1
        refine ⟨nameId, [], h1, by simp [Question.NameId, Question.base, hn], ?_, hk.1, ?_⟩
        · rw [Question.GetNameIdPaths.eq_def]
          simp [hn, hq, hc, e1.2]
        · intro _
          exact ⟨rfl, e1.2.symm⟩


/-! ## Instances of the properties -/

/-- C11, at a radio question with `value: null` and validators that reject
everything. -/
theorem UnmarshalJSON_value_not_defined_witness :
    decodeBase (.obj nullValueMembers) = .ok ⟨none, some "abc", some "radio", none, none⟩ ∧
    nameIdRegexp.MatchString "abc" = true ∧
    Question.UnmarshalJSON strictEnv (.obj nullValueMembers) =
      .error ("\n - error unmarshalling question '" ++ "abc" ++ "'. " ++
        "value is not defined") :=
  ⟨rfl, by decide,
    UnmarshalJSON_value_not_defined strictEnv nullValueMembers _ "abc" "radio" rfl rfl
      (by decide) rfl (Or.inl (by decide))
      (by
        intro kv hkv hk
        simp only [nullValueMembers, List.mem_cons, List.mem_singleton, List.not_mem_nil,
          or_false] at hkv
        rcases hkv with rfl | rfl | rfl
        · exact absurd hk (by decide)
        · exact absurd hk (by decide)
        · rfl)⟩

/-- C12, at a question with the type tag `slider`. -/
theorem UnmarshalJSON_unknown_type_witness :
    decodeBase sliderJson = .ok ⟨none, some "abc", some "slider", none, none⟩ ∧
    Question.UnmarshalJSON permissiveEnv sliderJson =
      .error ("invalid question type: " ++ "slider") :=
  ⟨rfl, UnmarshalJSON_unknown_type permissiveEnv sliderJson _ "abc" "slider" rfl rfl
    (by decide) rfl (by decide)⟩

/-- C13, at the nested question with the base path `questions.0`. -/
theorem GetNameIdPaths_head_witness :
    nestedQuestion.WellFormed = true ∧
    Slice.ValidIn ⟨0, 2, 2⟩ [["questions", "0"]] ∧
    ∃ nameId rest h1, nestedQuestion.NameId = some nameId ∧
      nestedQuestion.GetNameIdPaths gcGrow ⟨0, 2, 2⟩ [["questions", "0"]] =
        some (⟨nameId, ⟨0, 2, 2⟩, false⟩ :: rest, h1) ∧
      h1.read ⟨0, 2, 2⟩ = Heap.read [["questions", "0"]] ⟨0, 2, 2⟩ ∧
      (nestedQuestion.QTyp = some QTypeTextArea → rest = [] ∧ h1 = [["questions", "0"]]) :=
  ⟨by decide, ⟨by decide, by decide⟩,
    GetNameIdPaths_head gcGrow nestedQuestion ⟨0, 2, 2⟩ [["questions", "0"]] (by decide)
      ⟨by decide, by decide⟩⟩

/-- C14, at the nested question. -/
theorem GetNameIdPaths_preorder_witness :
    nestedQuestion.WellFormed = true ∧
    ∃ ps h1, nestedQuestion.GetNameIdPaths gcGrow ⟨0, 2, 2⟩ [["questions", "0"]] =
        some (ps, h1) ∧
      ps.map (fun ip => some ip.NameId) =
        (nestedQuestion.nodesAt []).map (fun n => n.1.NameId) ∧
      ps.length = (nestedQuestion.nodesAt []).length :=
  ⟨by decide,
    GetNameIdPaths_preorder gcGrow nestedQuestion ⟨0, 2, 2⟩ [["questions", "0"]] (by decide)⟩

/-- C15, amended, at an answer set with one valid answer and one unknown
key. -/
theorem Check_unknown_identifier_witness :
    optionalSurvey.FullJsonSurvey = some "doc" ∧
    (∃ e ∈ ([("color", ["2"]), ("other", ["1"])] : Answers String),
      optionalSurvey.NameIdPaths.get e.1 = none) ∧
    (optionalSurvey.Check sampleCheckEnv [("color", ["2"]), ("other", ["1"])]).result ≠ .ok () :=
  ⟨rfl, ⟨("other", ["1"]), by decide, by decide⟩,
    (Check_unknown_identifier sampleCheckEnv optionalSurvey "doc" rfl
      [("color", ["2"]), ("other", ["1"])] (by decide)
      ⟨("other", ["1"]), by decide, by decide⟩).1⟩

/-- C17, at a survey with two indexed questions: the answer to `size` passes
and is visited first, the answer to `color` is rejected. -/
theorem Check_one_rejected_witness :
    twoSurvey.FullJsonSurvey = some "doc" ∧
    answerRejected sampleCheckEnv twoSurvey (sampleCheckEnv.Parse "doc") ("color", ["9"])
      "questions.0" "unknown option" ∧
    twoSurvey.NameIdPaths.get ("color", ["9"]).1 = some "questions.0" ∧
    (twoSurvey.Check sampleCheckEnv ([("size", ["1"])] ++ ("color", ["9"]) :: [])).result =
      .error ("invalid answer for nameId '" ++ ("color", ["9"]).1 ++ "', path '" ++
        "questions.0" ++ "', error: " ++ "unknown option") :=
  ⟨rfl, ⟨"checkbox", sampleChecker, rfl, rfl, rfl, rfl⟩,
    Check_one_rejected sampleCheckEnv twoSurvey "doc" rfl [("size", ["1"])] []
      ("color", ["9"]) "questions.0" "unknown option" (by decide)
      (by
        intro x hx
        simp only [List.append_nil, List.mem_singleton] at hx
        subst hx
        exact ⟨"questions.1", "checkbox", sampleChecker, rfl, rfl, rfl, rfl⟩)
      ⟨"checkbox", sampleChecker, rfl, rfl, rfl, rfl⟩⟩

end Surveygo
